import Mathlib

/-!
Verification of the jito-relayer core against its specification.

The Rust sources are shallowly embedded: pubkeys, IPs and slots become `Nat`,
maps become association lists, bounded channels become explicit queue records,
and each event-loop arm becomes a pure state-transition function.
-/

set_option maxRecDepth 10000

namespace JitoRelayer

/-! ## Denylist (OFAC) filter — `core/src/ofac.rs` -/

/-- Model of `solana_sdk::message::v0::MessageAddressTableLookup`:
a reference to an address lookup table together with the index vectors
the transaction actually uses. -/
structure MessageAddressTableLookup where
  account_key : Nat
  writable_indexes : List Nat
  readonly_indexes : List Nat
  deriving DecidableEq, Repr

/-- Model of `VersionedTransaction`: the static account keys of the message and
the (optional, `None` for legacy messages) list of address-table lookups. -/
structure VersionedTransaction where
  static_account_keys : List Nat
  address_table_lookups : Option (List MessageAddressTableLookup)
  deriving DecidableEq, Repr

/-- Model of `AddressLookupTableAccount`: the table id and its ordered address list. -/
structure AddressLookupTableAccount where
  key : Nat
  addresses : List Nat
  deriving DecidableEq, Repr

/-- The `DashMap<Pubkey, AddressLookupTableAccount>` cache, as an association list. -/
abbrev LookupTableCache := List (Nat × AddressLookupTableAccount)

/-- Map lookup in the table cache (`address_lookup_table_cache.get(&key)`). -/
def cacheGet (cache : LookupTableCache) (k : Nat) : Option AddressLookupTableAccount :=
  (cache.find? (fun e => e.1 == k)).map (·.2)

/-- Embeds `is_ofac_address_in_static_keys`: any static account key is denied. -/
def is_ofac_address_in_static_keys (tx : VersionedTransaction) (ofac_addresses : List Nat) :
    Bool :=
  tx.static_account_keys.any (fun acc => ofac_addresses.contains acc)

/-- Embeds `is_ofac_address_in_lookup_table`: for each table lookup of the
transaction, resolve the table in the cache (a missing table contributes no
match) and check every address reachable through the lookup's writable and
readonly index vectors. -/
def is_ofac_address_in_lookup_table (tx : VersionedTransaction) (ofac_addresses : List Nat)
    (cache : LookupTableCache) : Bool :=
  match tx.address_table_lookups with
  | some lookup_tables =>
    lookup_tables.any (fun table =>
      match cacheGet cache table.account_key with
      | some lookup_info =>
        (table.writable_indexes ++ table.readonly_indexes).any (fun idx =>
          match lookup_info.addresses.get? idx with
          | some account => ofac_addresses.contains account
          | none => false)
      | none => false)
  | none => false

/-- Embeds `is_tx_ofac_related`: static-key hit or lookup-table hit. -/
def is_tx_ofac_related (tx : VersionedTransaction) (ofac_addresses : List Nat)
    (cache : LookupTableCache) : Bool :=
  is_ofac_address_in_static_keys tx ofac_addresses
    || is_ofac_address_in_lookup_table tx ofac_addresses cache

theorem is_ofac_address_in_lookup_table_iff (tx : VersionedTransaction)
    (ofac : List Nat) (cache : LookupTableCache) :
    is_ofac_address_in_lookup_table tx ofac cache = true ↔
      ∃ tbl ∈ tx.address_table_lookups.getD [],
        ∃ info, cacheGet cache tbl.account_key = some info ∧
          ∃ idx ∈ tbl.writable_indexes ++ tbl.readonly_indexes,
            ∃ a, info.addresses.get? idx = some a ∧ a ∈ ofac := by
  unfold is_ofac_address_in_lookup_table
  cases htl : tx.address_table_lookups with
  | none => simp
  | some tables =>
    simp only [Option.getD_some, List.any_eq_true]
    constructor
    · rintro ⟨tbl, htbl, hhit⟩
      refine ⟨tbl, htbl, ?_⟩
      cases hc : cacheGet cache tbl.account_key with
      | none => rw [hc] at hhit; exact absurd hhit (by simp)
      | some info =>
        rw [hc] at hhit
        simp only [List.any_eq_true] at hhit
        obtain ⟨idx, hidx, hacc⟩ := hhit
        refine ⟨info, rfl, idx, hidx, ?_⟩
        cases ha : info.addresses.get? idx with
        | none => rw [ha] at hacc; exact absurd hacc (by simp)
        | some account =>
          rw [ha] at hacc
          exact ⟨account, rfl, by simpa using hacc⟩
    · rintro ⟨tbl, htbl, info, hinfo, idx, hidx, a, ha, hmem⟩
      refine ⟨tbl, htbl, ?_⟩
      rw [hinfo]
      simp only [List.any_eq_true]
      exact ⟨idx, hidx, by rw [ha]; simpa using hmem⟩

/-- Claim C3: for every transaction, non-empty denied-set and table cache, the
denylist filter returns true iff some static account key of the transaction is
denied, or some table lookup of the transaction names a table present in the
cache and some index in that lookup's writable or readonly index vectors
resolves in that table to a denied address; a lookup whose table is absent from
the cache contributes no match, and cached addresses not referenced by the
index vectors are ignored. -/
theorem denylist_filter_iff (tx : VersionedTransaction) (ofac : List Nat)
    (cache : LookupTableCache) (hne : ofac ≠ []) :
    is_tx_ofac_related tx ofac cache = true ↔
      ((∃ k ∈ tx.static_account_keys, k ∈ ofac) ∨
        ∃ tbl ∈ tx.address_table_lookups.getD [],
          ∃ info, cacheGet cache tbl.account_key = some info ∧
            ∃ idx ∈ tbl.writable_indexes ++ tbl.readonly_indexes,
              ∃ a, info.addresses.get? idx = some a ∧ a ∈ ofac) := by
  unfold is_tx_ofac_related is_ofac_address_in_static_keys
  rw [Bool.or_eq_true, List.any_eq_true]
  rw [is_ofac_address_in_lookup_table_iff]
  simp

/-- Witness for C3: a transaction whose only denied reference goes through a
cached lookup table is flagged, in accordance with the characterization. -/
theorem denylist_filter_iff_witness :
    ([7] : List Nat) ≠ [] ∧
      (is_tx_ofac_related
          { static_account_keys := [1, 2],
            address_table_lookups := some [{ account_key := 5,
                                             writable_indexes := [1],
                                             readonly_indexes := [] }] }
          [7] [(5, { key := 5, addresses := [9, 7] })] = true ↔
        ((∃ k ∈ [1, 2], k ∈ ([7] : List Nat)) ∨
          ∃ tbl ∈ (some [({ account_key := 5, writable_indexes := [1],
                            readonly_indexes := [] } : MessageAddressTableLookup)]).getD [],
            ∃ info, cacheGet [(5, { key := 5, addresses := [9, 7] })] tbl.account_key
                = some info ∧
              ∃ idx ∈ tbl.writable_indexes ++ tbl.readonly_indexes,
                ∃ a, info.addresses.get? idx = some a ∧ a ∈ ([7] : List Nat))) :=
  ⟨by decide,
    denylist_filter_iff
      { static_account_keys := [1, 2],
        address_table_lookups := some [{ account_key := 5, writable_indexes := [1],
                                         readonly_indexes := [] }] }
      [7] [(5, { key := 5, addresses := [9, 7] })] (by decide)⟩

/-! ## Upstream selector slot stream — `rpc/src/load_balancer.rs` -/

/-- State of the per-source subscription threads of
`LoadBalancer::start_subscription_threads`: the shared `highest_slot` atomic,
each thread's decided-but-not-yet-sent slot (the window between its
`fetch_max` and the following `slot_sender.send`, during which other threads
run freely), and the slots delivered to the outbound channel so far, in
channel order. -/
structure SelectorState where
  highest_slot : Nat
  pending : Nat → Option Nat
  sent : List Nat

/-- Fine-grained actions of the subscription threads.  `slotEvent i slot` is
thread `i` receiving a slot event and executing `highest_slot.fetch_max`: when
the slot strictly exceeds the old maximum the thread decides to send it.
`sendEvent i` is the same thread later executing that decided
`slot_sender.send`.  The two are separate steps because the source takes no
lock around the pair; a thread whose send is still pending takes no new slot
event. -/
inductive SelectorEvent where
  | slotEvent (i : Nat) (slot : Nat)
  | sendEvent (i : Nat)

/-- One interleaved step of the subscription threads. -/
def selectorStep (st : SelectorState) (e : SelectorEvent) : SelectorState :=
  match e with
  | .slotEvent i slot =>
    match st.pending i with
    | some _ => st
    | none =>
      let old_slot := st.highest_slot
      let new_highest := max st.highest_slot slot
      if old_slot < slot then
        { st with highest_slot := new_highest,
                  pending := fun j => if j = i then some slot else st.pending j }
      else
        { st with highest_slot := new_highest }
  | .sendEvent i =>
    match st.pending i with
    | some v =>
      { st with sent := st.sent ++ [v],
                pending := fun j => if j = i then none else st.pending j }
    | none => st

/-- Start state: `AtomicU64::default()`, no send pending, empty channel. -/
def initSelectorState : SelectorState :=
  { highest_slot := 0, pending := fun _ => none, sent := [] }

/-- Runs the interleaved subscription threads over a sequence of actions. -/
def runSelectorThreads (events : List SelectorEvent) : SelectorState :=
  events.foldl selectorStep initSelectorState

/-- The slots the threads decide to publish, in the order the shared maximum
is advanced (the order of the winning `fetch_max` calls). -/
def reservedList (st : SelectorState) : List SelectorEvent → List Nat
  | [] => []
  | e :: rest =>
    (match e with
     | .slotEvent i slot =>
       match st.pending i with
       | none => if st.highest_slot < slot then [slot] else []
       | some _ => []
     | .sendEvent _ => []) ++ reservedList (selectorStep st e) rest

/-- A schedule in which every thread's fetch_max-and-send block happens to run
without interleaving from the other threads. -/
def mkAtomicSchedule (l : List (Nat × Nat)) : List SelectorEvent :=
  l.flatMap (fun p => [.slotEvent p.1 p.2, .sendEvent p.1])

/-- Counterexample to claim C5 as stated: thread 0 wins `fetch_max` with slot
10, thread 1 then wins with slot 12 and sends first, and thread 0's delayed
send delivers 10 after 12 — the published stream `[12, 10]` is not strictly
increasing, because `fetch_max` and the channel send are not one atomic
step. -/
theorem selector_stream_regression_counterexample :
    (runSelectorThreads
        [.slotEvent 0 10, .slotEvent 1 12, .sendEvent 1, .sendEvent 0]).sent = [12, 10] ∧
      ¬ (runSelectorThreads
          [.slotEvent 0 10, .slotEvent 1 12, .sendEvent 1, .sendEvent 0]).sent.Chain'
        (· < ·) := by
  refine ⟨rfl, ?_⟩
  intro h
  rw [show (runSelectorThreads
      [.slotEvent 0 10, .slotEvent 1 12, .sendEvent 1, .sendEvent 0]).sent
      = [12, 10] from rfl, List.chain'_cons] at h
  exact absurd h.1 (by decide)

theorem reservedList_chain (events : List SelectorEvent) :
    ∀ st : SelectorState, (reservedList st events).Chain' (· < ·) ∧
      ∀ x ∈ reservedList st events, st.highest_slot < x := by
  induction events with
  | nil =>
    intro st
    exact ⟨List.chain'_nil, fun x hx => absurd hx (by simp [reservedList])⟩
  | cons e rest ih =>
    intro st
    cases e with
    | sendEvent i =>
      have hhi : (selectorStep st (.sendEvent i)).highest_slot = st.highest_slot := by
        cases hp : st.pending i <;> simp [selectorStep, hp]
      have hres : reservedList st (.sendEvent i :: rest) =
          reservedList (selectorStep st (.sendEvent i)) rest := by
        simp [reservedList]
      rw [hres]
      obtain ⟨c1, c2⟩ := ih (selectorStep st (.sendEvent i))
      exact ⟨c1, fun x hx => hhi ▸ c2 x hx⟩
    | slotEvent i slot =>
      cases hp : st.pending i with
      | some w =>
        have hstep : selectorStep st (.slotEvent i slot) = st := by
          simp [selectorStep, hp]
        have hres : reservedList st (.slotEvent i slot :: rest) =
            reservedList (selectorStep st (.slotEvent i slot)) rest := by
          simp [reservedList, hp]
        rw [hres, hstep]
        exact ih st
      | none =>
        by_cases hlt : st.highest_slot < slot
        · have hstep : selectorStep st (.slotEvent i slot) =
              { st with highest_slot := max st.highest_slot slot,
                        pending := fun j => if j = i then some slot else st.pending j } := by
            simp [selectorStep, hp, hlt]
          have hres : reservedList st (.slotEvent i slot :: rest) =
              slot :: reservedList (selectorStep st (.slotEvent i slot)) rest := by
            simp [reservedList, hp, hlt]
          have hmax : max st.highest_slot slot = slot := Nat.max_eq_right (Nat.le_of_lt hlt)
          obtain ⟨c1, c2⟩ := ih (selectorStep st (.slotEvent i slot))
          have c2' : ∀ x ∈ reservedList (selectorStep st (.slotEvent i slot)) rest,
              slot < x := by
            intro x hx
            have hc := c2 x hx
            rw [hstep] at hc
            simpa [hmax] using hc
          rw [hres]
          constructor
          · rw [List.chain'_cons']
            exact ⟨fun b hb => c2' b (List.mem_of_mem_head? hb), c1⟩
          · intro x hx
            rcases List.mem_cons.mp hx with rfl | hx
            · exact hlt
            · exact Nat.lt_trans hlt (c2' x hx)
        · have hstep : selectorStep st (.slotEvent i slot) =
              { st with highest_slot := max st.highest_slot slot } := by
            simp [selectorStep, hp, hlt]
          have hres : reservedList st (.slotEvent i slot :: rest) =
              reservedList (selectorStep st (.slotEvent i slot)) rest := by
            simp [reservedList, hp, hlt]
          have hmax : max st.highest_slot slot = st.highest_slot :=
            Nat.max_eq_left (Nat.le_of_not_lt hlt)
          obtain ⟨c1, c2⟩ := ih (selectorStep st (.slotEvent i slot))
          rw [hres]
          refine ⟨c1, fun x hx => ?_⟩
          have hc := c2 x hx
          rw [hstep] at hc
          simpa [hmax] using hc

theorem mem_sent_foldl_selectorStep (events : List SelectorEvent) :
    ∀ (st : SelectorState) (v : Nat), v ∈ (events.foldl selectorStep st).sent →
      v ∈ st.sent ∨ (∃ i, st.pending i = some v) ∨ v ∈ reservedList st events := by
  induction events with
  | nil => intro st v hv; exact Or.inl hv
  | cons e rest ih =>
    intro st v hv
    rw [List.foldl_cons] at hv
    have hmemtail : ∀ w, w ∈ reservedList (selectorStep st e) rest →
        w ∈ reservedList st (e :: rest) := by
      intro w hw
      cases e with
      | slotEvent i slot =>
        cases hp : st.pending i with
        | some u =>
          have hres : reservedList st (.slotEvent i slot :: rest) =
              reservedList (selectorStep st (.slotEvent i slot)) rest := by
            simp [reservedList, hp]
          rw [hres]
          exact hw
        | none =>
          by_cases hlt : st.highest_slot < slot
          · have hres : reservedList st (.slotEvent i slot :: rest) =
                slot :: reservedList (selectorStep st (.slotEvent i slot)) rest := by
              simp [reservedList, hp, hlt]
            rw [hres]
            exact List.mem_cons_of_mem _ hw
          · have hres : reservedList st (.slotEvent i slot :: rest) =
                reservedList (selectorStep st (.slotEvent i slot)) rest := by
              simp [reservedList, hp, hlt]
            rw [hres]
            exact hw
      | sendEvent i =>
        have hres : reservedList st (.sendEvent i :: rest) =
            reservedList (selectorStep st (.sendEvent i)) rest := by
          simp [reservedList]
        rw [hres]
        exact hw
    rcases ih (selectorStep st e) v hv with h | ⟨j, hj⟩ | h
    · cases e with
      | slotEvent i slot =>
        have hsent : (selectorStep st (.slotEvent i slot)).sent = st.sent := by
          cases hp : st.pending i
          · by_cases hlt : st.highest_slot < slot <;> simp [selectorStep, hp, hlt]
          · simp [selectorStep, hp]
        exact Or.inl (hsent ▸ h)
      | sendEvent i =>
        cases hp : st.pending i with
        | none =>
          have hstep : selectorStep st (.sendEvent i) = st := by
            simp [selectorStep, hp]
          exact Or.inl (by rwa [hstep] at h)
        | some w =>
          have hsent : (selectorStep st (.sendEvent i)).sent = st.sent ++ [w] := by
            simp [selectorStep, hp]
          rw [hsent] at h
          rcases List.mem_append.mp h with h' | h'
          · exact Or.inl h'
          · exact Or.inr (Or.inl ⟨i, by rw [hp, List.mem_singleton.mp h']⟩)
    · cases e with
      | slotEvent i slot =>
        cases hp : st.pending i with
        | some w =>
          have hstep : selectorStep st (.slotEvent i slot) = st := by
            simp [selectorStep, hp]
          rw [hstep] at hj
          exact Or.inr (Or.inl ⟨j, hj⟩)
        | none =>
          by_cases hlt : st.highest_slot < slot
          · have hpend : (selectorStep st (.slotEvent i slot)).pending =
                fun k => if k = i then some slot else st.pending k := by
              simp [selectorStep, hp, hlt]
            rw [hpend] at hj
            by_cases hji : j = i
            · simp only [hji, if_pos rfl] at hj
              have hvs : v = slot := (Option.some_inj.mp hj).symm
              refine Or.inr (Or.inr ?_)
              have hres : reservedList st (.slotEvent i slot :: rest) =
                  slot :: reservedList (selectorStep st (.slotEvent i slot)) rest := by
                simp [reservedList, hp, hlt]
              rw [hres, hvs]
              exact List.mem_cons_self _ _
            · simp only [if_neg hji] at hj
              exact Or.inr (Or.inl ⟨j, hj⟩)
          · have hpend : (selectorStep st (.slotEvent i slot)).pending = st.pending := by
              simp [selectorStep, hp, hlt]
            rw [hpend] at hj
            exact Or.inr (Or.inl ⟨j, hj⟩)
      | sendEvent i =>
        cases hp : st.pending i with
        | none =>
          have hstep : selectorStep st (.sendEvent i) = st := by
            simp [selectorStep, hp]
          rw [hstep] at hj
          exact Or.inr (Or.inl ⟨j, hj⟩)
        | some w =>
          have hpend : (selectorStep st (.sendEvent i)).pending =
              fun k => if k = i then none else st.pending k := by
            simp [selectorStep, hp]
          rw [hpend] at hj
          by_cases hji : j = i
          · simp [hji] at hj
          · simp only [if_neg hji] at hj
            exact Or.inr (Or.inl ⟨j, hj⟩)
    · exact Or.inr (Or.inr (hmemtail v h))

theorem atomic_schedule_sent_chain (l : List (Nat × Nat)) :
    ∀ st : SelectorState, (∀ j, st.pending j = none) → st.sent.Chain' (· < ·) →
      (∀ x, st.sent.getLast? = some x → x ≤ st.highest_slot) →
      ((mkAtomicSchedule l).foldl selectorStep st).sent.Chain' (· < ·) := by
  induction l with
  | nil => intro st _ hchain _; exact hchain
  | cons p l ih =>
    intro st hpend hchain hlast
    obtain ⟨i, s⟩ := p
    have hsched : mkAtomicSchedule ((i, s) :: l) =
        .slotEvent i s :: .sendEvent i :: mkAtomicSchedule l := by
      simp [mkAtomicSchedule]
    rw [hsched, List.foldl_cons, List.foldl_cons]
    by_cases hlt : st.highest_slot < s
    · have hstep1 : selectorStep st (.slotEvent i s) =
          { st with highest_slot := max st.highest_slot s,
                    pending := fun j => if j = i then some s else st.pending j } := by
        simp [selectorStep, hpend i, hlt]
      have hstep2 : selectorStep (selectorStep st (.slotEvent i s)) (.sendEvent i) =
          { highest_slot := max st.highest_slot s,
            pending := fun j => if j = i then none
              else (fun k => if k = i then some s else st.pending k) j,
            sent := st.sent ++ [s] } := by
        rw [hstep1]
        simp [selectorStep]
      rw [hstep2]
      apply ih
      · intro j
        by_cases hji : j = i
        · simp [hji]
        · simp [hji, hpend j]
      · refine List.Chain'.append hchain (by simp : List.Chain' (· < ·) [s]) ?_
        intro x hx y hy
        have hx' := hlast x (by simpa using hx)
        have hy' : s = y := by simpa using hy
        subst hy'
        exact Nat.lt_of_le_of_lt hx' hlt
      · intro x hx
        have hlx : (st.sent ++ [s]).getLast? = some s := List.getLast?_concat _
        rw [hlx] at hx
        rw [← Option.some_inj.mp hx]
        exact Nat.le_max_right _ _
    · have hstep1 : selectorStep st (.slotEvent i s) =
          { st with highest_slot := max st.highest_slot s } := by
        simp [selectorStep, hpend i, hlt]
      have hstep2 : selectorStep (selectorStep st (.slotEvent i s)) (.sendEvent i) =
          { st with highest_slot := max st.highest_slot s } := by
        rw [hstep1]
        simp [selectorStep, hpend i]
      rw [hstep2]
      apply ih
      · exact hpend
      · exact hchain
      · intro x hx
        exact Nat.le_trans (hlast x hx) (Nat.le_max_left _ _)

/-- Claim C5 (amended): a source slot event whose value does not strictly
exceed the shared global maximum causes no send decision and no send; the
slots the selector decides to publish are strictly increasing in the order the
shared maximum is advanced, and every slot on the outbound channel is one of
them; but because `fetch_max` and the channel send are two separate steps with
no lock around the pair, interleaved source threads may deliver those slots to
the channel out of order, so the published stream itself is guaranteed
strictly increasing only when each fetch_max-and-send block runs without
interleaving. -/
theorem selector_publish_decisions_increasing (events : List SelectorEvent)
    (pairs : List (Nat × Nat)) (st : SelectorState) (i slot : Nat)
    (hpend : st.pending i = none) (hle : slot ≤ st.highest_slot) :
    ((selectorStep st (.slotEvent i slot)).sent = st.sent ∧
      (selectorStep st (.slotEvent i slot)).pending = st.pending) ∧
      (reservedList initSelectorState events).Chain' (· < ·) ∧
      (∀ v ∈ (runSelectorThreads events).sent, v ∈ reservedList initSelectorState events) ∧
      (runSelectorThreads (mkAtomicSchedule pairs)).sent.Chain' (· < ·) := by
  refine ⟨?_, (reservedList_chain events initSelectorState).1, ?_, ?_⟩
  · have hstep : selectorStep st (.slotEvent i slot) =
        { st with highest_slot := max st.highest_slot slot } := by
      simp [selectorStep, hpend, Nat.not_lt.mpr hle]
    rw [hstep]
    exact ⟨rfl, rfl⟩
  · intro v hv
    rcases mem_sent_foldl_selectorStep events initSelectorState v hv with h | ⟨j, hj⟩ | h
    · exact absurd h (List.not_mem_nil v)
    · exact absurd hj (by simp [initSelectorState])
    · exact h
  · exact atomic_schedule_sent_chain pairs initSelectorState (fun _ => rfl)
      List.chain'_nil (fun x hx => by simp [initSelectorState] at hx)

/-- Witness for the amended C5: the initial state has no pending send and
slot 0 does not exceed the maximum, and the atomic-schedule stream for events
10, 12, 9 is strictly increasing (`[10, 12]`). -/
theorem selector_publish_decisions_increasing_witness :
    initSelectorState.pending 0 = none ∧
      (runSelectorThreads (mkAtomicSchedule [(0, 10), (1, 12), (1, 9)])).sent.Chain'
        (· < ·) :=
  ⟨rfl,
    (selector_publish_decisions_increasing [] [(0, 10), (1, 12), (1, 9)]
      initSelectorState 0 0 rfl (by decide)).2.2.2⟩

/-! ## Health supervisor — `relayer/src/health_manager.rs` -/

/-- Model of `HealthState`: `true` is `Healthy`, `false` is `Unhealthy`. -/
def HealthState := Bool

/-- State of the health-manager thread: the shared flag and the instant of the
last received slot (`last_update`).  Time is a `Nat` instant. -/
structure HealthManagerState where
  health_state : Bool
  last_update : Nat
  deriving DecidableEq, Repr

/-- Events selected on by the health-manager loop, stamped with the current
instant: a `check_and_metrics_tick` firing, or a slot arriving. -/
inductive HealthEvent where
  | tick (now : Nat)
  | slot (now : Nat)
  deriving DecidableEq, Repr

/-- Initial state built by `HealthManager::new`: `HealthState::Unhealthy` and
`last_update = Instant::now()` at the start instant. -/
def healthManagerInit (start : Nat) : HealthManagerState :=
  { health_state := false, last_update := start }

/-- Embeds one iteration of the health-manager select loop: on a tick the flag
becomes Healthy iff `last_update.elapsed() <= missing_slot_unhealthy_threshold`;
on a slot, `last_update` is reset to now. -/
def healthManagerStep (threshold : Nat) (st : HealthManagerState) (e : HealthEvent) :
    HealthManagerState :=
  match e with
  | .tick now => { st with health_state := decide (now - st.last_update ≤ threshold) }
  | .slot now => { st with last_update := now }

/-- Runs the health-manager loop over an event sequence. -/
def runHealthManager (threshold : Nat) (start : Nat) (events : List HealthEvent) :
    HealthManagerState :=
  events.foldl (healthManagerStep threshold) (healthManagerInit start)

/-- The instant of the most recent slot event, or the start instant if none. -/
def lastSlotInstant (start : Nat) (events : List HealthEvent) : Nat :=
  events.foldl (fun acc e => match e with | .tick _ => acc | .slot now => now) start

theorem foldl_healthManagerStep_last_update (threshold : Nat) (events : List HealthEvent) :
    ∀ st : HealthManagerState,
      (events.foldl (healthManagerStep threshold) st).last_update =
        lastSlotInstant st.last_update events := by
  unfold lastSlotInstant
  induction events with
  | nil => intro st; rfl
  | cons e rest ih =>
    intro st
    cases e with
    | tick now => simpa [healthManagerStep] using ih _
    | slot now => simpa [healthManagerStep] using ih _

theorem runHealthManager_last_update (threshold start : Nat) (events : List HealthEvent) :
    (runHealthManager threshold start events).last_update = lastSlotInstant start events :=
  foldl_healthManagerStep_last_update threshold events (healthManagerInit start)

/-- Claim C10: the health supervisor starts Unhealthy with `last_update` the
start instant; the first evaluation tick (threshold/2 after start, with no slot
ever received) sets the flag Healthy; and any tick sets the flag Healthy iff at
most the threshold has elapsed since `last_update`, which always equals the
instant of the last received slot, or the start instant when no slot arrived. -/
theorem health_supervisor_first_tick_healthy (threshold start now : Nat)
    (st : HealthManagerState) (events : List HealthEvent) :
    (healthManagerInit start).health_state = false ∧
      (healthManagerInit start).last_update = start ∧
      (healthManagerStep threshold (healthManagerInit start)
          (.tick (start + threshold / 2))).health_state = true ∧
      ((healthManagerStep threshold st (.tick now)).health_state = true ↔
        now - st.last_update ≤ threshold) ∧
      (runHealthManager threshold start events).last_update = lastSlotInstant start events := by
  refine ⟨rfl, rfl, ?_, ?_, runHealthManager_last_update threshold start events⟩
  · simp only [healthManagerStep, healthManagerInit, decide_eq_true_eq]
    omega
  · simp [healthManagerStep]

/-! ## TPU configs RPC — `relayer/src/relayer.rs`, `RelayerImpl::get_tpu_configs` -/

/-- Model of `jito_protos::shared::Socket`. -/
structure Socket where
  ip : String
  port : Nat
  deriving DecidableEq, Repr

/-- Model of `GetTpuConfigsResponse`. -/
structure GetTpuConfigsResponse where
  tpu : Socket
  tpu_forward : Socket
  deriving DecidableEq, Repr

/-- The `RelayerImpl` fields read by `get_tpu_configs`, with the atomic
sequence number made explicit. -/
structure TpuConfigState where
  tpu_quic_ports : List Nat
  tpu_fwd_quic_ports : List Nat
  public_ip : String
  seq : Nat
  deriving DecidableEq, Repr

/-- Wrapping `u16` subtraction, matching release-mode overflow semantics of
the Rust `-` on `u16` (the operands here are ports, below `2^16`). -/
def u16WrappingSub (a b : Nat) : Nat := (a + 65536 - b % 65536) % 65536

/-- Embeds `RelayerImpl::get_tpu_configs`: reads and post-increments the
sequence number, indexes both port pools by `seq mod len`, subtracts 6 from
each chosen port, and reports the public IP in both sockets. -/
def get_tpu_configs (st : TpuConfigState) : GetTpuConfigsResponse × TpuConfigState :=
  let seq := st.seq
  ({ tpu := { ip := toString st.public_ip,
              port := u16WrappingSub
                (st.tpu_quic_ports.getD (seq % st.tpu_quic_ports.length) 0) 6 },
     tpu_forward := { ip := toString st.public_ip,
                      port := u16WrappingSub
                        (st.tpu_fwd_quic_ports.getD (seq % st.tpu_fwd_quic_ports.length) 0) 6 } },
   { st with seq := st.seq + 1 })

/-- The service state after `k` completed `GetTpuConfigs` calls. -/
def tpuStateAfter (st0 : TpuConfigState) : Nat → TpuConfigState
  | 0 => st0
  | k + 1 => (get_tpu_configs (tpuStateAfter st0 k)).2

/-- The response of the `k`-th `GetTpuConfigs` call (counting from 0). -/
def kthTpuResponse (st0 : TpuConfigState) (k : Nat) : GetTpuConfigsResponse :=
  (get_tpu_configs (tpuStateAfter st0 k)).1

theorem tpuStateAfter_fields (st0 : TpuConfigState) (k : Nat) :
    (tpuStateAfter st0 k).seq = st0.seq + k ∧
      (tpuStateAfter st0 k).tpu_quic_ports = st0.tpu_quic_ports ∧
      (tpuStateAfter st0 k).tpu_fwd_quic_ports = st0.tpu_fwd_quic_ports ∧
      (tpuStateAfter st0 k).public_ip = st0.public_ip := by
  induction k with
  | zero => exact ⟨rfl, rfl, rfl, rfl⟩
  | succ k ih =>
    simp only [tpuStateAfter, get_tpu_configs]
    exact ⟨by rw [ih.1]; omega, ih.2.1, ih.2.2.1, ih.2.2.2⟩

theorem u16WrappingSub_eq_sub {p : Nat} (h6 : 6 ≤ p) (hlt : p < 65536) :
    u16WrappingSub p 6 = p - 6 := by
  unfold u16WrappingSub
  omega

/-- Claim C8: every `GetTpuConfigs` call returns the relayer public IP in both
sockets, and the `k`-th call (the atomic sequence number counting from 0)
returns as tpu port the element at index `k mod len(tpu_quic_ports)` of the
configured tpu port list minus 6, and as tpu-forward port the element at index
`k mod len(tpu_fwd_quic_ports)` of the configured forward list minus 6. -/
theorem get_tpu_configs_round_robin (ports fwd : List Nat) (ip : String) (k : Nat)
    (hports : ∀ p ∈ ports, 6 ≤ p ∧ p < 65536) (hfwd : ∀ p ∈ fwd, 6 ≤ p ∧ p < 65536)
    (hpne : ports ≠ []) (hfne : fwd ≠ []) :
    (kthTpuResponse ⟨ports, fwd, ip, 0⟩ k).tpu.ip = toString ip ∧
      (kthTpuResponse ⟨ports, fwd, ip, 0⟩ k).tpu_forward.ip = toString ip ∧
      (kthTpuResponse ⟨ports, fwd, ip, 0⟩ k).tpu.port =
        ports.getD (k % ports.length) 0 - 6 ∧
      (kthTpuResponse ⟨ports, fwd, ip, 0⟩ k).tpu_forward.port =
        fwd.getD (k % fwd.length) 0 - 6 := by
  obtain ⟨hseq, hp, hf, hip⟩ := tpuStateAfter_fields ⟨ports, fwd, ip, 0⟩ k
  unfold kthTpuResponse get_tpu_configs
  rw [hseq, hp, hf, hip]
  refine ⟨rfl, rfl, ?_, ?_⟩
  · have hmem : ports.getD (k % ports.length) 0 ∈ ports := by
      have hlen : 0 < ports.length := List.length_pos.mpr hpne
      have hklt := Nat.mod_lt k hlen
      rw [List.getD_eq_getElem?_getD, List.getElem?_eq_getElem hklt, Option.getD_some]
      exact List.getElem_mem hklt
    obtain ⟨h6, hlt⟩ := hports _ hmem
    simpa using u16WrappingSub_eq_sub h6 hlt
  · have hmem : fwd.getD (k % fwd.length) 0 ∈ fwd := by
      have hlen : 0 < fwd.length := List.length_pos.mpr hfne
      have hklt := Nat.mod_lt k hlen
      rw [List.getD_eq_getElem?_getD, List.getElem?_eq_getElem hklt, Option.getD_some]
      exact List.getElem_mem hklt
    obtain ⟨h6, hlt⟩ := hfwd _ hmem
    simpa using u16WrappingSub_eq_sub h6 hlt

/-- Witness for C8: with port pools `[8009, 8010]` and `[8011]`, the third call
(index 2) wraps around to port `8009 - 6` and forward port `8011 - 6`. -/
theorem get_tpu_configs_round_robin_witness :
    (∀ p ∈ [8009, 8010], 6 ≤ p ∧ p < 65536) ∧ (∀ p ∈ [8011], 6 ≤ p ∧ p < 65536) ∧
      ((kthTpuResponse ⟨[8009, 8010], [8011], "1.2.3.4", 0⟩ 2).tpu.ip = toString "1.2.3.4" ∧
        (kthTpuResponse ⟨[8009, 8010], [8011], "1.2.3.4", 0⟩ 2).tpu_forward.ip
            = toString "1.2.3.4" ∧
        (kthTpuResponse ⟨[8009, 8010], [8011], "1.2.3.4", 0⟩ 2).tpu.port =
          [8009, 8010].getD (2 % [8009, 8010].length) 0 - 6 ∧
        (kthTpuResponse ⟨[8009, 8010], [8011], "1.2.3.4", 0⟩ 2).tpu_forward.port =
          [8011].getD (2 % [8011].length) 0 - 6) :=
  ⟨by decide, by decide,
    get_tpu_configs_round_robin [8009, 8010] [8011] "1.2.3.4" 2
      (by decide) (by decide) (by decide) (by decide)⟩

/-! ## Auth challenges and auth service — `relayer/src/auth_challenges.rs`,
`relayer/src/auth_service.rs` -/

/-- Model of `Claims`: the ip/pubkey/expiry triple embedded in tokens.
Pubkeys are byte lists (32 bytes when well-formed); instants are `Nat`. -/
structure Claims where
  client_ip : Nat
  client_pubkey : List Nat
  expires_at_utc : Nat
  deriving DecidableEq, Repr

/-- Model of `AuthChallenge`. -/
structure AuthChallenge where
  challenge : String
  access_claims : Claims
  refresh_claims : Claims
  expires_at_utc : Nat
  deriving DecidableEq, Repr

/-- Embeds `AuthChallenge::is_expired`: `expires_at_utc <= now`. -/
def AuthChallenge.is_expired (c : AuthChallenge) (now : Nat) : Bool :=
  c.expires_at_utc ≤ now

/-- The keyed challenge store (`KeyedPriorityQueue<IpAddr, Reverse<AuthChallenge>>`),
as an association list keyed by IP.  Only the keyed-map face of the queue is
used by the RPC handlers; the priority order only drives the expiry sweeper. -/
abbrev AuthChallenges := List (Nat × AuthChallenge)

/-- Embeds `AuthChallenges::get_priority`. -/
def challengesGet (s : AuthChallenges) (ip : Nat) : Option AuthChallenge :=
  (s.find? (fun e => e.1 == ip)).map (·.2)

/-- Embeds `AuthChallenges::remove`. -/
def challengesRemove (s : AuthChallenges) (ip : Nat) : AuthChallenges :=
  s.filter (fun e => e.1 != ip)

/-- Embeds `AuthChallenges::push`: replaces any existing entry for the IP. -/
def challengesPush (s : AuthChallenges) (ip : Nat) (c : AuthChallenge) : AuthChallenges :=
  challengesRemove s ip ++ [(ip, c)]

/-- Embeds `AuthChallenges::len`. -/
def challengesLen (s : AuthChallenges) : Nat := s.length

theorem challengesGet_challengesPush (s : AuthChallenges) (ip : Nat) (c : AuthChallenge) :
    challengesGet (challengesPush s ip c) ip = some c := by
  unfold challengesGet challengesPush challengesRemove
  rw [List.find?_append]
  have hnone : (s.filter (fun e => e.1 != ip)).find? (fun e => e.1 == ip) = none := by
    rw [List.find?_eq_none]
    intro e he
    have := List.of_mem_filter he
    simpa using this
  rw [hnone]
  simp [List.find?]

/-- The gRPC error statuses produced by the auth handlers. -/
inductive GrpcStatus where
  | internalStatus
  | resourceExhausted
  | invalidArgument
  | permissionDenied
  deriving DecidableEq, Repr

/-- Model of `GenerateAuthChallengeRequest`: the numeric proto role and the
raw pubkey bytes. -/
structure GenerateAuthChallengeRequest where
  role : Nat
  pubkey : List Nat
  deriving DecidableEq, Repr

/-- The numeric value of `Role::Validator as i32` (the concrete proto value is
irrelevant; the handler compares against this constant). -/
def roleValidator : Nat := 1

/-- Embeds `AUTH_CHALLENGES_CAPACITY`. -/
def AUTH_CHALLENGES_CAPACITY : Nat := 100000

/-- The TTL configuration of `AuthServiceImpl`. -/
structure AuthServiceConfig where
  access_token_ttl : Nat
  refresh_token_ttl : Nat
  challenge_ttl : Nat
  deriving DecidableEq, Repr

/-- The fall-through tail of `generate_auth_challenge` reached when no live
challenge is stored for the caller's IP: role, pubkey-length and authorization
checks, then insertion of the freshly generated challenge. -/
def generate_auth_challenge_fresh (cfg : AuthServiceConfig)
    (validator_auther : List Nat → Bool) (now : Nat) (store : AuthChallenges)
    (client_ip : Nat) (req : GenerateAuthChallengeRequest) (fresh_challenge : String) :
    Except GrpcStatus String × AuthChallenges :=
  if req.role ≠ roleValidator then (.error .invalidArgument, store)
  else if req.pubkey.length ≠ 32 then (.error .invalidArgument, store)
  else if validator_auther req.pubkey = false then (.error .permissionDenied, store)
  else
    (.ok fresh_challenge,
      challengesPush store client_ip
        { challenge := fresh_challenge,
          access_claims := { client_ip := client_ip, client_pubkey := req.pubkey,
                             expires_at_utc := now + cfg.access_token_ttl },
          refresh_claims := { client_ip := client_ip, client_pubkey := req.pubkey,
                              expires_at_utc := now + cfg.refresh_token_ttl },
          expires_at_utc := now + cfg.challenge_ttl })

/-- Embeds `AuthServiceImpl::generate_auth_challenge`: health gate, capacity
gate, idempotent return of a stored non-expired challenge, otherwise the
fresh-challenge tail.  `fresh_challenge` stands for the 9-character random
token drawn inside the handler. -/
def generate_auth_challenge (cfg : AuthServiceConfig)
    (validator_auther : List Nat → Bool) (healthy : Bool) (now : Nat)
    (store : AuthChallenges) (client_ip : Nat) (req : GenerateAuthChallengeRequest)
    (fresh_challenge : String) : Except GrpcStatus String × AuthChallenges :=
  if healthy = false then (.error .internalStatus, store)
  else if AUTH_CHALLENGES_CAPACITY ≤ challengesLen store then
    (.error .resourceExhausted, store)
  else
    match challengesGet store client_ip with
    | some auth_challenge =>
      if auth_challenge.is_expired now = false then (.ok auth_challenge.challenge, store)
      else generate_auth_challenge_fresh cfg validator_auther now store client_ip req
            fresh_challenge
    | none => generate_auth_challenge_fresh cfg validator_auther now store client_ip req
        fresh_challenge

theorem generate_auth_challenge_ok_stores (cfg : AuthServiceConfig)
    (auther : List Nat → Bool) (now : Nat) (store : AuthChallenges) (ip : Nat)
    (req : GenerateAuthChallengeRequest) (fresh c : String) (s₂ : AuthChallenges)
    (h : generate_auth_challenge cfg auther true now store ip req fresh = (.ok c, s₂)) :
    ∃ ch, challengesGet s₂ ip = some ch ∧ ch.challenge = c := by
  unfold generate_auth_challenge at h
  rw [if_neg (by simp)] at h
  by_cases hcap : AUTH_CHALLENGES_CAPACITY ≤ challengesLen store
  · rw [if_pos hcap] at h; exact absurd (congrArg Prod.fst h) (by simp)
  rw [if_neg hcap] at h
  have hfresh : ∀ (hh : generate_auth_challenge_fresh cfg auther now store ip req fresh
      = (.ok c, s₂)), ∃ ch, challengesGet s₂ ip = some ch ∧ ch.challenge = c := by
    intro hh
    unfold generate_auth_challenge_fresh at hh
    by_cases h1 : req.role ≠ roleValidator
    · rw [if_pos h1] at hh; exact absurd (congrArg Prod.fst hh) (by simp)
    rw [if_neg h1] at hh
    by_cases h2 : req.pubkey.length ≠ 32
    · rw [if_pos h2] at hh; exact absurd (congrArg Prod.fst hh) (by simp)
    rw [if_neg h2] at hh
    by_cases h3 : auther req.pubkey = false
    · rw [if_pos h3] at hh; exact absurd (congrArg Prod.fst hh) (by simp)
    rw [if_neg h3] at hh
    rw [Prod.mk.injEq] at hh
    obtain ⟨hc, hs⟩ := hh
    have hc' : fresh = c := by injection hc
    subst hc'
    refine ⟨{ challenge := fresh,
              access_claims := ⟨ip, req.pubkey, now + cfg.access_token_ttl⟩,
              refresh_claims := ⟨ip, req.pubkey, now + cfg.refresh_token_ttl⟩,
              expires_at_utc := now + cfg.challenge_ttl }, ?_, rfl⟩
    rw [← hs]
    exact challengesGet_challengesPush store ip _
  cases hget : challengesGet store ip with
  | none => simp only [hget] at h; exact hfresh h
  | some ch =>
    simp only [hget] at h
    by_cases hexp : ch.is_expired now = false
    · rw [if_pos hexp] at h
      have hc : ch.challenge = c := by simpa using congrArg Prod.fst h
      have hs : store = s₂ := by simpa using congrArg Prod.snd h
      exact ⟨ch, hs ▸ hget, hc⟩
    · rw [if_neg hexp] at h; exact hfresh h

/-- Claim C6: if `GenerateAuthChallenge` succeeds for an IP returning challenge
string `c`, then any later `GenerateAuthChallenge` call from the same IP — for
any role and pubkey — made while the stored challenge is non-expired, the store
is below capacity and the service is healthy, returns the same string `c` and
leaves the challenge store completely unchanged. -/
theorem challenge_issue_idempotent (cfg : AuthServiceConfig)
    (auther auther' : List Nat → Bool) (now now' : Nat) (store s₂ : AuthChallenges)
    (ip : Nat) (req req' : GenerateAuthChallengeRequest) (fresh fresh' c : String)
    (ch₂ : AuthChallenge)
    (hcall : generate_auth_challenge cfg auther true now store ip req fresh = (.ok c, s₂))
    (hcap : challengesLen s₂ < AUTH_CHALLENGES_CAPACITY)
    (hget₂ : challengesGet s₂ ip = some ch₂)
    (hlive : ¬ ch₂.expires_at_utc ≤ now') :
    generate_auth_challenge cfg auther' true now' s₂ ip req' fresh' = (.ok c, s₂) := by
  obtain ⟨ch, hget, hchal⟩ :=
    generate_auth_challenge_ok_stores cfg auther now store ip req fresh c s₂ hcall
  have hch : ch₂ = ch := by rw [hget₂] at hget; exact Option.some_inj.mp hget
  subst hch
  unfold generate_auth_challenge
  rw [if_neg (by simp), if_neg (Nat.not_le.mpr hcap)]
  simp only [hget₂]
  have hexp : ch₂.is_expired now' = false := by
    unfold AuthChallenge.is_expired
    exact decide_eq_false hlive
  rw [if_pos hexp, hchal]

/-- Witness for C6: a fresh challenge issued at time 0 with a 10-tick TTL is
returned verbatim by a repeat call at time 3, with the store untouched. -/
theorem challenge_issue_idempotent_witness :
    generate_auth_challenge ⟨5, 7, 10⟩ (fun _ => true) true 0 [] 0
        ⟨roleValidator, List.replicate 32 0⟩ "abcDEF123" =
      (.ok "abcDEF123",
        [(0, { challenge := "abcDEF123",
               access_claims := ⟨0, List.replicate 32 0, 5⟩,
               refresh_claims := ⟨0, List.replicate 32 0, 7⟩,
               expires_at_utc := 10 })]) ∧
      generate_auth_challenge ⟨5, 7, 10⟩ (fun _ => false) true 3
          [(0, { challenge := "abcDEF123",
                 access_claims := ⟨0, List.replicate 32 0, 5⟩,
                 refresh_claims := ⟨0, List.replicate 32 0, 7⟩,
                 expires_at_utc := 10 })] 0 ⟨0, []⟩ "zzzzzzzzz" =
        (.ok "abcDEF123",
          [(0, { challenge := "abcDEF123",
                 access_claims := ⟨0, List.replicate 32 0, 5⟩,
                 refresh_claims := ⟨0, List.replicate 32 0, 7⟩,
                 expires_at_utc := 10 })]) :=
  ⟨by rfl,
    challenge_issue_idempotent ⟨5, 7, 10⟩ (fun _ => true) (fun _ => false) 0 3 []
      [(0, { challenge := "abcDEF123",
             access_claims := ⟨0, List.replicate 32 0, 5⟩,
             refresh_claims := ⟨0, List.replicate 32 0, 7⟩,
             expires_at_utc := 10 })] 0
      ⟨roleValidator, List.replicate 32 0⟩ ⟨0, []⟩ "abcDEF123" "zzzzzzzzz" "abcDEF123"
      { challenge := "abcDEF123",
        access_claims := ⟨0, List.replicate 32 0, 5⟩,
        refresh_claims := ⟨0, List.replicate 32 0, 7⟩,
        expires_at_utc := 10 }
      (by rfl) (by decide) (by rfl) (by decide)⟩

/-- Model of `GenerateAuthTokensRequest`: raw pubkey bytes, the challenge
string the client signed, and the raw signature bytes. -/
structure GenerateAuthTokensRequest where
  client_pubkey : List Nat
  challenge : String
  signed_challenge : List Nat
  deriving DecidableEq, Repr

/-- Model of a minted `Token`: JWT signing is opaque, so a token is its signed
claims payload together with the reported absolute expiry. -/
structure PbToken where
  claims : Claims
  expires_at_utc : Nat
  deriving DecidableEq, Repr

/-- Model of `GenerateAuthTokensResponse`. -/
structure GenerateAuthTokensResponse where
  access_token : PbToken
  refresh_token : PbToken
  deriving DecidableEq, Repr

/-- The `Display` rendering of a pubkey used when building
`format!("{}-{}", solana_pubkey, challenge)`; base58 is opaque, any fixed
rendering serves. -/
def pubkeyDisplay (p : List Nat) : String := toString p

/-- Embeds `AuthServiceImpl::generate_auth_tokens`.  `verify` abstracts the
Ed25519 signature check `client_pubkey.verify(challenge_bytes, signature)`;
pubkey decoding succeeds on 32 bytes, signature decoding on 64 bytes.  Note
the handler reads no clock: the stored challenge's `expires_at_utc` is never
consulted. -/
def generate_auth_tokens (verify : List Nat → String → List Nat → Bool)
    (healthy : Bool) (store : AuthChallenges) (client_ip : Nat)
    (req : GenerateAuthTokensRequest) :
    Except GrpcStatus GenerateAuthTokensResponse × AuthChallenges :=
  if healthy = false then (.error .internalStatus, store)
  else if req.client_pubkey.length ≠ 32 then (.error .invalidArgument, store)
  else
    match challengesGet store client_ip with
    | none => (.error .permissionDenied, store)
    | some auth_challenge =>
      if auth_challenge.access_claims.client_pubkey ≠ req.client_pubkey then
        (.error .permissionDenied, store)
      else if pubkeyDisplay req.client_pubkey ++ "-" ++ auth_challenge.challenge
          ≠ req.challenge then
        (.error .invalidArgument, store)
      else if req.signed_challenge.length ≠ 64 then (.error .invalidArgument, store)
      else if verify req.client_pubkey req.challenge req.signed_challenge = false then
        (.error .invalidArgument, store)
      else
        (.ok { access_token := { claims := auth_challenge.access_claims,
                                 expires_at_utc := auth_challenge.access_claims.expires_at_utc },
               refresh_token := { claims := auth_challenge.refresh_claims,
                                  expires_at_utc := auth_challenge.refresh_claims.expires_at_utc } },
         challengesRemove store client_ip)

theorem generate_auth_tokens_store_cases (verify : List Nat → String → List Nat → Bool)
    (healthy : Bool) (store : AuthChallenges) (ip : Nat)
    (req : GenerateAuthTokensRequest) :
    (generate_auth_tokens verify healthy store ip req).2 = store ∨
      ∃ resp, generate_auth_tokens verify healthy store ip req =
        (.ok resp, challengesRemove store ip) := by
  unfold generate_auth_tokens
  repeat' split
  all_goals first
    | exact Or.inl rfl
    | exact Or.inr ⟨_, rfl⟩

/-- Claim C7: a `GenerateAuthTokens` call from an IP whose stored challenge is
bound to pubkey P1, supplying a well-formed (32-byte) pubkey P2 ≠ P1, returns
PermissionDenied and leaves the challenge store unchanged; and in general the
stored challenge is removed only when token minting succeeds. -/
theorem generate_auth_tokens_wrong_pubkey (verify : List Nat → String → List Nat → Bool)
    (store : AuthChallenges) (ip : Nat) (ch : AuthChallenge)
    (req : GenerateAuthTokensRequest)
    (hget : challengesGet store ip = some ch)
    (hlen : req.client_pubkey.length = 32)
    (hne : req.client_pubkey ≠ ch.access_claims.client_pubkey) :
    generate_auth_tokens verify true store ip req = (.error .permissionDenied, store) ∧
      ∀ (verify' : List Nat → String → List Nat → Bool) (healthy' : Bool)
        (store' : AuthChallenges) (ip' : Nat) (req' : GenerateAuthTokensRequest),
        (generate_auth_tokens verify' healthy' store' ip' req').2 = store' ∨
          ∃ resp, generate_auth_tokens verify' healthy' store' ip' req' =
            (.ok resp, challengesRemove store' ip') := by
  refine ⟨?_, fun verify' healthy' store' ip' req' =>
    generate_auth_tokens_store_cases verify' healthy' store' ip' req'⟩
  unfold generate_auth_tokens
  rw [if_neg (by simp), if_neg (by simp [hlen])]
  simp only [hget]
  rw [if_pos (fun heq => hne heq.symm)]

/-- Witness for C7: a stored challenge bound to the all-zero pubkey rejects a
token request carrying the all-one pubkey and keeps the store intact. -/
theorem generate_auth_tokens_wrong_pubkey_witness :
    challengesGet [(4, { challenge := "abc",
                         access_claims := ⟨4, List.replicate 32 0, 5⟩,
                         refresh_claims := ⟨4, List.replicate 32 0, 7⟩,
                         expires_at_utc := 10 })] 4 =
        some { challenge := "abc",
               access_claims := ⟨4, List.replicate 32 0, 5⟩,
               refresh_claims := ⟨4, List.replicate 32 0, 7⟩,
               expires_at_utc := 10 } ∧
      generate_auth_tokens (fun _ _ _ => true) true
          [(4, { challenge := "abc",
                 access_claims := ⟨4, List.replicate 32 0, 5⟩,
                 refresh_claims := ⟨4, List.replicate 32 0, 7⟩,
                 expires_at_utc := 10 })] 4
          ⟨List.replicate 32 1, "x", []⟩ =
        (.error .permissionDenied,
          [(4, { challenge := "abc",
                 access_claims := ⟨4, List.replicate 32 0, 5⟩,
                 refresh_claims := ⟨4, List.replicate 32 0, 7⟩,
                 expires_at_utc := 10 })]) :=
  ⟨by rfl,
    (generate_auth_tokens_wrong_pubkey (fun _ _ _ => true)
      [(4, { challenge := "abc",
             access_claims := ⟨4, List.replicate 32 0, 5⟩,
             refresh_claims := ⟨4, List.replicate 32 0, 7⟩,
             expires_at_utc := 10 })] 4
      { challenge := "abc",
        access_claims := ⟨4, List.replicate 32 0, 5⟩,
        refresh_claims := ⟨4, List.replicate 32 0, 7⟩,
        expires_at_utc := 10 }
      ⟨List.replicate 32 1, "x", []⟩ (by rfl) (by decide) (by decide)).1⟩

/-- Claim C9: `GenerateAuthTokens` never consults the stored challenge's
expiry: if the challenge stored for the caller's IP has passed its
`expires_at_utc` but the sweeper has not yet removed it, a request with the
matching pubkey, the matching challenge string and a valid 64-byte signature
still succeeds, minting both tokens from the challenge's stored claims and
removing the challenge. -/
theorem generate_auth_tokens_ignores_expiry (verify : List Nat → String → List Nat → Bool)
    (store : AuthChallenges) (ip now : Nat) (ch : AuthChallenge)
    (req : GenerateAuthTokensRequest)
    (hget : challengesGet store ip = some ch)
    (hexpired : ch.is_expired now = true)
    (hpk : req.client_pubkey = ch.access_claims.client_pubkey)
    (hlen : req.client_pubkey.length = 32)
    (hch : req.challenge = pubkeyDisplay req.client_pubkey ++ "-" ++ ch.challenge)
    (hsig : req.signed_challenge.length = 64)
    (hver : verify req.client_pubkey req.challenge req.signed_challenge = true) :
    generate_auth_tokens verify true store ip req =
      (.ok { access_token := { claims := ch.access_claims,
                               expires_at_utc := ch.access_claims.expires_at_utc },
             refresh_token := { claims := ch.refresh_claims,
                                expires_at_utc := ch.refresh_claims.expires_at_utc } },
       challengesRemove store ip) := by
  unfold generate_auth_tokens
  rw [if_neg (by simp), if_neg (by simp [hlen])]
  simp only [hget]
  rw [if_neg (fun hcon => hcon hpk.symm), if_neg (fun hcon => hcon hch.symm),
    if_neg (by simp [hsig]), if_neg (by simp [hver])]

/-- Witness for C9: a challenge expired at time 20 still mints both tokens. -/
theorem generate_auth_tokens_ignores_expiry_witness :
    (AuthChallenge.is_expired
        { challenge := "abc",
          access_claims := ⟨4, List.replicate 32 0, 5⟩,
          refresh_claims := ⟨4, List.replicate 32 0, 7⟩,
          expires_at_utc := 10 } 20 = true) ∧
      generate_auth_tokens (fun _ _ _ => true) true
          [(4, { challenge := "abc",
                 access_claims := ⟨4, List.replicate 32 0, 5⟩,
                 refresh_claims := ⟨4, List.replicate 32 0, 7⟩,
                 expires_at_utc := 10 })] 4
          ⟨List.replicate 32 0,
            pubkeyDisplay (List.replicate 32 0) ++ "-" ++ "abc",
            List.replicate 64 9⟩ =
        (.ok { access_token := { claims := ⟨4, List.replicate 32 0, 5⟩,
                                 expires_at_utc := 5 },
               refresh_token := { claims := ⟨4, List.replicate 32 0, 7⟩,
                                  expires_at_utc := 7 } },
          challengesRemove
            [(4, { challenge := "abc",
                   access_claims := ⟨4, List.replicate 32 0, 5⟩,
                   refresh_claims := ⟨4, List.replicate 32 0, 7⟩,
                   expires_at_utc := 10 })] 4) :=
  ⟨by decide,
    generate_auth_tokens_ignores_expiry (fun _ _ _ => true)
      [(4, { challenge := "abc",
             access_claims := ⟨4, List.replicate 32 0, 5⟩,
             refresh_claims := ⟨4, List.replicate 32 0, 7⟩,
             expires_at_utc := 10 })] 4 20
      { challenge := "abc",
        access_claims := ⟨4, List.replicate 32 0, 5⟩,
        refresh_claims := ⟨4, List.replicate 32 0, 7⟩,
        expires_at_utc := 10 }
      ⟨List.replicate 32 0,
        pubkeyDisplay (List.replicate 32 0) ++ "-" ++ "abc",
        List.replicate 64 9⟩
      (by rfl) (by decide) (by rfl) (by decide) (by rfl) (by decide) (by rfl)⟩

/-! ## Relayer core event loop — `relayer/src/relayer.rs` -/

/-- Model of a TPU packet: the discard flag from `meta()` and the payload as
its decode result (`deserialize_slice`), `none` when undecodable. -/
structure Packet where
  discard : Bool
  payload : Option VersionedTransaction
  deriving DecidableEq, Repr

/-- Messages carried by a subscriber stream (`SubscribePacketsResponse.msg`):
a heartbeat or a packet batch. -/
inductive SubscriberMsg where
  | heartbeatMsg (count : Nat)
  | batchMsg (packets : List Packet)
  deriving DecidableEq, Repr

/-- A subscriber's bounded tokio channel, seen from the sender side. -/
structure SubscriberQueue where
  capacity : Nat
  messages : List SubscriberMsg
  closed : Bool
  deriving DecidableEq, Repr

/-- Outcome of `Sender::try_send`. -/
inductive TrySendResult where
  | ok
  | full
  | closedErr
  deriving DecidableEq, Repr

/-- Embeds `try_send` on a bounded channel: a closed channel rejects with
`Closed`, a channel at capacity rejects with `Full`, otherwise the message is
enqueued in FIFO order. -/
def trySend (q : SubscriberQueue) (m : SubscriberMsg) : TrySendResult × SubscriberQueue :=
  if q.closed then (.closedErr, q)
  else if q.capacity ≤ q.messages.length then (.full, q)
  else (.ok, { q with messages := q.messages ++ [m] })

/-- The `HashMap<Pubkey, TokioSender<...>>` of subscriptions, as an
association list with unique keys. -/
abbrev PacketSubscriptions := List (Nat × SubscriberQueue)

/-- Map lookup (`subscriptions.get(pubkey)`). -/
def subsGet (subs : PacketSubscriptions) (pk : Nat) : Option SubscriberQueue :=
  (subs.find? (fun e => e.1 == pk)).map (·.2)

/-- Replaces the queue stored under an existing key, leaving other keys alone. -/
def subsSet (subs : PacketSubscriptions) (pk : Nat) (q : SubscriberQueue) :
    PacketSubscriptions :=
  subs.map (fun e => if e.1 == pk then (pk, q) else e)

/-- Embeds `HashMap::entry` insert: replace under an occupied key, append
under a vacant one. -/
def subsInsert (subs : PacketSubscriptions) (pk : Nat) (q : SubscriberQueue) :
    PacketSubscriptions :=
  if (subs.find? (fun e => e.1 == pk)).isSome then subsSet subs pk q
  else subs ++ [(pk, q)]

/-- Embeds `HashMap::remove`. -/
def subsRemove (subs : PacketSubscriptions) (pk : Nat) : PacketSubscriptions :=
  subs.filter (fun e => e.1 != pk)

/-- The message list of a subscriber's queue (empty when not subscribed). -/
def queueMsgs (subs : PacketSubscriptions) (pk : Nat) : List SubscriberMsg :=
  match subsGet subs pk with
  | some q => q.messages
  | none => []

/-- Embeds the packet-selection pipeline at the head of
`RelayerImpl::forward_packets`: flatten the banking batches, drop discarded
packets, and when the OFAC set is non-empty keep only packets whose payload
decodes and is not OFAC-related (`packet_to_proto_packet` conversion is the
identity here). -/
def filterForwardPackets (batches : List (List Packet)) (ofac_addresses : List Nat)
    (cache : LookupTableCache) : List Packet :=
  batches.flatMap (fun batch =>
    (batch.filter (fun p => !p.discard)).filterMap (fun packet =>
      if !ofac_addresses.isEmpty then
        match packet.payload with
        | some tx =>
          if !is_tx_ofac_related tx ofac_addresses cache then some packet else none
        | none => none
      else some packet))

/-- Embeds `slice::chunks` in closed form: the `i`-th chunk is the `n`
elements starting at offset `i * n`, the last chunk possibly shorter (`n = 0`
is unreachable, the configured batch size is positive). -/
def listChunks (n : Nat) (l : List Packet) : List (List Packet) :=
  (List.range ((l.length + n - 1) / n)).map (fun i => (l.drop (i * n)).take n)

/-- The relayer state mutated by `forward_packets`: the subscriptions map and
the per-validator forwarded/dropped packet counters of `RelayerMetrics`. -/
structure FwdState where
  subs : PacketSubscriptions
  forwarded : Nat → Nat
  dropped : Nat → Nat

/-- Pointwise counter bump (`saturating_add_assign` on the per-validator
entry; counters stay far below `u64::MAX` between metrics resets). -/
def bumpCounter (f : Nat → Nat) (pk : Nat) (n : Nat) : Nat → Nat :=
  fun k => if k = pk then f k + n else f k

/-- Embeds the inner `for (pubkey, sender) in &senders` loop of
`forward_packets` for one chunk: `Ok` bumps the forwarded counter, `Full`
bumps the dropped counter and continues, `Closed` records the pubkey in
`failed_forwards` and `break`s out of the senders loop. -/
def sendChunkToSenders (chunk : List Packet) (recipients : List Nat) (st : FwdState) :
    FwdState × List Nat :=
  match recipients with
  | [] => (st, [])
  | pk :: rest =>
    match subsGet st.subs pk with
    | none => sendChunkToSenders chunk rest st
    | some q =>
      match trySend q (.batchMsg chunk) with
      | (.ok, q') =>
        sendChunkToSenders chunk rest
          { st with subs := subsSet st.subs pk q',
                    forwarded := bumpCounter st.forwarded pk chunk.length }
      | (.full, _) =>
        sendChunkToSenders chunk rest
          { st with dropped := bumpCounter st.dropped pk chunk.length }
      | (.closedErr, _) => (st, [pk])

/-- Embeds the outer `for batch in &proto_packet_batches` loop: empty chunks
are skipped, `failed_forwards` accumulates across chunks. -/
def forwardBatches (chunks : List (List Packet)) (recipients : List Nat) (st : FwdState) :
    FwdState × List Nat :=
  match chunks with
  | [] => (st, [])
  | b :: rest =>
    if b.isEmpty then forwardBatches rest recipients st
    else
      let r := sendChunkToSenders b recipients st
      let r' := forwardBatches rest recipients r.1
      (r'.1, r.2 ++ r'.2)

/-- Embeds the `senders` selection of `forward_packets`: every subscriber
under `forward_all`, otherwise the slot leaders that are subscribed. -/
def computeSenders (forward_all : Bool) (slot_leaders : List Nat)
    (subs : PacketSubscriptions) : List Nat :=
  if forward_all then subs.map (·.1)
  else slot_leaders.filter (fun pk => (subsGet subs pk).isSome)

/-- Embeds `RelayerImpl::forward_packets`: filter, re-chunk, pick the
recipient set, then try-send every chunk to every recipient.  Returns the new
state and the `failed_forwards` pubkeys. -/
def forwardPackets (ofac_addresses : List Nat) (cache : LookupTableCache)
    (validator_packet_batch_size : Nat) (forward_all : Bool) (slot_leaders : List Nat)
    (batches : List (List Packet)) (st : FwdState) : FwdState × List Nat :=
  let packets := filterForwardPackets batches ofac_addresses cache
  let proto_packet_batches := listChunks validator_packet_batch_size packets
  let senders := computeSenders forward_all slot_leaders st.subs
  forwardBatches proto_packet_batches senders st

/-- Embeds `RelayerImpl::drop_connections`: remove every reported pubkey. -/
def dropConnections (disconnected : List Nat) (subs : PacketSubscriptions) :
    PacketSubscriptions :=
  disconnected.foldl (fun s pk => subsRemove s pk) subs

/-- Embeds `RelayerImpl::handle_heartbeat`: try-send a heartbeat to every
subscriber; `Closed` senders are collected for removal, `Full` ones only
counted. -/
def handleHeartbeat (subs : PacketSubscriptions) (num_heartbeats : Nat) :
    PacketSubscriptions × List Nat :=
  match subs with
  | [] => ([], [])
  | (pk, q) :: rest =>
    let r := handleHeartbeat rest num_heartbeats
    match trySend q (.heartbeatMsg num_heartbeats) with
    | (.ok, q') => ((pk, q') :: r.1, r.2)
    | (.full, _) => ((pk, q) :: r.1, r.2)
    | (.closedErr, _) => ((pk, q) :: r.1, pk :: r.2)

/-- Embeds `LeaderScheduleCacheUpdater::leaders_for_slots`: the set of leaders
of the given slots (`HashSet` collected as a deduplicated list). -/
def leaders_for_slots (schedule : Nat → Option Nat) (slots : List Nat) : List Nat :=
  (slots.filterMap schedule).dedup

/-- The configuration of `RelayerImpl::run_event_loop`. -/
structure LoopConfig where
  schedule : Nat → Option Nat
  slot_lookahead : Nat
  ofac_addresses : List Nat
  address_lookup_table_cache : LookupTableCache
  validator_packet_batch_size : Nat
  forward_all : Bool

/-- The state owned by the event loop. -/
structure LoopState where
  highest_slot : Nat
  slot_leaders : List Nat
  fwd : FwdState
  num_heartbeats : Nat

/-- Embeds `SUBSCRIBER_QUEUE_CAPACITY`. -/
def SUBSCRIBER_QUEUE_CAPACITY : Nat := 50000

/-- One iteration of the `crossbeam_channel::select!` in `run_event_loop`,
plus the two subscriber-side actions (closing a stream, consuming a message)
that happen outside the loop thread. -/
inductive LoopEvent where
  | slotEv (s : Nat)
  | packetEv (batches : List (List Packet))
  | subscribeEv (pk : Nat)
  | heartbeatEv (healthy : Bool)
  | closeEv (pk : Nat)
  | dequeueEv (pk : Nat)

/-- Embeds one arm of the event loop (and the two external queue actions):
the slot arm updates `highest_slot` and recomputes the lookahead leader set;
the packet arm runs `forward_packets` then `drop_connections`; the
subscription arm inserts a fresh empty bounded queue; the heartbeat arm
heartbeats every subscriber when healthy and drops all of them when
unhealthy. -/
def loopStep (cfg : LoopConfig) (st : LoopState) (e : LoopEvent) : LoopState :=
  match e with
  | .slotEv s =>
    { st with highest_slot := s,
              slot_leaders := leaders_for_slots cfg.schedule
                (List.range' s cfg.slot_lookahead) }
  | .packetEv batches =>
    let r := forwardPackets cfg.ofac_addresses cfg.address_lookup_table_cache
      cfg.validator_packet_batch_size cfg.forward_all st.slot_leaders batches st.fwd
    { st with fwd := { r.1 with subs := dropConnections r.2 r.1.subs } }
  | .subscribeEv pk =>
    let fresh : SubscriberQueue :=
      { capacity := SUBSCRIBER_QUEUE_CAPACITY, messages := [], closed := false }
    { st with fwd := { st.fwd with subs := subsInsert st.fwd.subs pk fresh } }
  | .heartbeatEv healthy =>
    if healthy then
      let r := handleHeartbeat st.fwd.subs st.num_heartbeats
      { st with fwd := { st.fwd with subs := dropConnections r.2 r.1 },
                num_heartbeats := st.num_heartbeats + 1 }
    else
      { st with fwd := { st.fwd with
          subs := dropConnections (st.fwd.subs.map (·.1)) st.fwd.subs } }
  | .closeEv pk =>
    match subsGet st.fwd.subs pk with
    | some q =>
      { st with fwd := { st.fwd with
          subs := subsSet st.fwd.subs pk { q with closed := true } } }
    | none => st
  | .dequeueEv pk =>
    match subsGet st.fwd.subs pk with
    | some q =>
      { st with fwd := { st.fwd with
          subs := subsSet st.fwd.subs pk { q with messages := q.messages.tail } } }
    | none => st

/-- The event-loop state at start: slot 0, empty leader set, no subscribers,
zeroed counters. -/
def initLoopState : LoopState :=
  { highest_slot := 0, slot_leaders := [],
    fwd := { subs := [], forwarded := fun _ => 0, dropped := fun _ => 0 },
    num_heartbeats := 0 }

/-- Runs the event loop over a sequence of events. -/
def runLoop (cfg : LoopConfig) (events : List LoopEvent) : LoopState :=
  events.foldl (loopStep cfg) initLoopState

theorem subsGet_cons (e : Nat × SubscriberQueue) (rest : PacketSubscriptions) (V : Nat) :
    subsGet (e :: rest) V = if e.1 == V then some e.2 else subsGet rest V := by
  unfold subsGet
  cases h : (e.1 == V) <;> simp [List.find?_cons, h]

theorem subsSet_cons (e : Nat × SubscriberQueue) (rest : PacketSubscriptions) (pk : Nat)
    (q : SubscriberQueue) :
    subsSet (e :: rest) pk q = (if e.1 == pk then (pk, q) else e) :: subsSet rest pk q := rfl

theorem subsGet_subsSet_ne (subs : PacketSubscriptions) (pk : Nat) (q : SubscriberQueue)
    (V : Nat) (h : V ≠ pk) : subsGet (subsSet subs pk q) V = subsGet subs V := by
  induction subs with
  | nil => rfl
  | cons e rest ih =>
    rw [subsSet_cons]
    by_cases hee : e.1 = pk
    · rw [if_pos (beq_iff_eq.mpr hee), subsGet_cons, subsGet_cons]
      have h1 : ((pk : Nat) == V) = false := beq_eq_false_iff_ne.mpr (Ne.symm h)
      have h2 : (e.1 == V) = false := by rw [hee]; exact h1
      rw [h1, h2]
      simpa using ih
    · rw [if_neg (fun hc => hee (beq_iff_eq.mp hc)), subsGet_cons, subsGet_cons]
      by_cases heV : e.1 = V
      · rw [if_pos (beq_iff_eq.mpr heV), if_pos (beq_iff_eq.mpr heV)]
      · rw [if_neg (fun hc => heV (beq_iff_eq.mp hc)),
          if_neg (fun hc => heV (beq_iff_eq.mp hc))]
        exact ih

theorem subsGet_subsSet_self (subs : PacketSubscriptions) (pk : Nat) (q : SubscriberQueue) :
    subsGet (subsSet subs pk q) pk = (subsGet subs pk).map (fun _ => q) := by
  induction subs with
  | nil => rfl
  | cons e rest ih =>
    rw [subsSet_cons]
    by_cases hee : e.1 = pk
    · rw [if_pos (beq_iff_eq.mpr hee), subsGet_cons, subsGet_cons]
      have h1 : ((pk : Nat) == pk) = true := beq_iff_eq.mpr rfl
      have h2 : (e.1 == pk) = true := beq_iff_eq.mpr hee
      rw [h1, h2]
      rfl
    · rw [if_neg (fun hc => hee (beq_iff_eq.mp hc)), subsGet_cons, subsGet_cons]
      rw [if_neg (fun hc => hee (beq_iff_eq.mp hc)),
        if_neg (fun hc => hee (beq_iff_eq.mp hc))]
      exact ih

theorem subsGet_subsInsert (subs : PacketSubscriptions) (pk : Nat) (q : SubscriberQueue)
    (V : Nat) :
    subsGet (subsInsert subs pk q) V = if V = pk then some q else subsGet subs V := by
  unfold subsInsert
  by_cases hocc : (subs.find? (fun e => e.1 == pk)).isSome
  · rw [if_pos hocc]
    by_cases hv : V = pk
    · subst hv
      rw [subsGet_subsSet_self, if_pos rfl]
      obtain ⟨e, he⟩ := Option.isSome_iff_exists.mp hocc
      unfold subsGet
      rw [he]
      rfl
    · rw [subsGet_subsSet_ne subs pk q V hv, if_neg hv]
  · rw [if_neg hocc]
    unfold subsGet
    rw [List.find?_append]
    have hnone : subs.find? (fun e => e.1 == pk) = none := by
      cases hf : subs.find? (fun e => e.1 == pk)
      · rfl
      · exact absurd (by rw [hf]; rfl) hocc
    by_cases hv : V = pk
    · subst hv
      rw [hnone]
      simp [List.find?]
    · have hbeq : ((pk : Nat) == V) = false := beq_eq_false_iff_ne.mpr (Ne.symm hv)
      cases hf : subs.find? (fun e => e.1 == V)
      · simp [List.find?, hbeq, hf, hv]
      · simp [hf, hv]

theorem subsGet_subsRemove (subs : PacketSubscriptions) (pk V : Nat) :
    subsGet (subsRemove subs pk) V = if V = pk then none else subsGet subs V := by
  induction subs with
  | nil => simp [subsRemove, subsGet, List.find?]
  | cons e rest ih =>
    unfold subsRemove at ih ⊢
    by_cases hee : e.1 = pk
    · rw [List.filter_cons_of_neg (by simp [hee])]
      rw [ih, subsGet_cons]
      by_cases hv : V = pk
      · simp [hv]
      · have heV : ¬ e.1 = V := fun hc => hv (by rw [← hc, hee])
        simp [hv, heV]
    · rw [List.filter_cons_of_pos (by simp [hee])]
      rw [subsGet_cons, subsGet_cons, ih]
      by_cases heV : e.1 = V
      · have hvpk : ¬ V = pk := fun hc => hee (by rw [heV, hc])
        simp [heV, hvpk]
      · simp [heV]

theorem queueMsgs_eq_of_subsGet_eq {subs subs' : PacketSubscriptions} {V : Nat}
    (h : subsGet subs' V = subsGet subs V) : queueMsgs subs' V = queueMsgs subs V := by
  unfold queueMsgs
  rw [h]

theorem mem_queueMsgs_dropConnections (l : List Nat) (subs : PacketSubscriptions)
    (V : Nat) (m : SubscriberMsg) (h : m ∈ queueMsgs (dropConnections l subs) V) :
    m ∈ queueMsgs subs V := by
  induction l generalizing subs with
  | nil => exact h
  | cons pk rest ih =>
    have h' := ih (subsRemove subs pk) h
    unfold queueMsgs at h' ⊢
    rw [subsGet_subsRemove] at h'
    by_cases hv : V = pk
    · rw [if_pos hv] at h'
      exact absurd h' (List.not_mem_nil m)
    · rwa [if_neg hv] at h'

theorem mem_of_mem_listChunks (n : Nat) (l b : List Packet) (hb : b ∈ listChunks n l)
    (p : Packet) (hp : p ∈ b) : p ∈ l := by
  unfold listChunks at hb
  rw [List.mem_map] at hb
  obtain ⟨i, _, rfl⟩ := hb
  exact List.drop_subset _ _ (List.take_subset _ _ hp)

theorem mem_filterForwardPackets (batches : List (List Packet)) (ofac : List Nat)
    (cache : LookupTableCache) (p : Packet) (h : p ∈ filterForwardPackets batches ofac cache) :
    p.discard = false ∧
      (ofac ≠ [] → ∃ tx, p.payload = some tx ∧ is_tx_ofac_related tx ofac cache = false) := by
  unfold filterForwardPackets at h
  rw [List.mem_flatMap] at h
  obtain ⟨batch, hbatch, hmem⟩ := h
  rw [List.mem_filterMap] at hmem
  obtain ⟨a, ha, hfa⟩ := hmem
  rw [List.mem_filter] at ha
  by_cases hempty : ofac.isEmpty
  · rw [if_neg (by simp [hempty])] at hfa
    obtain rfl : a = p := Option.some_inj.mp hfa
    refine ⟨by simpa using ha.2, fun hne => absurd (List.isEmpty_iff.mp hempty) hne⟩
  · rw [if_pos (by simp [hempty])] at hfa
    cases hpl : a.payload with
    | none => simp only [hpl] at hfa; exact absurd hfa (by simp)
    | some tx =>
      simp only [hpl] at hfa
      by_cases hrel : is_tx_ofac_related tx ofac cache
      · rw [if_neg (by simp [hrel])] at hfa
        exact absurd hfa (by simp)
      · rw [if_pos (by simp [hrel])] at hfa
        obtain rfl : a = p := Option.some_inj.mp hfa
        exact ⟨by simpa using ha.2,
          fun _ => ⟨tx, hpl, by simpa using hrel⟩⟩

theorem queueMsgs_of_subsGet_some {subs : PacketSubscriptions} {V : Nat}
    {q : SubscriberQueue} (h : subsGet subs V = some q) : queueMsgs subs V = q.messages := by
  unfold queueMsgs
  rw [h]

theorem queueMsgs_of_subsGet_none {subs : PacketSubscriptions} {V : Nat}
    (h : subsGet subs V = none) : queueMsgs subs V = [] := by
  unfold queueMsgs
  rw [h]

theorem queueMsgs_cons (e : Nat × SubscriberQueue) (rest : PacketSubscriptions) (V : Nat) :
    queueMsgs (e :: rest) V = if e.1 == V then e.2.messages else queueMsgs rest V := by
  unfold queueMsgs
  rw [subsGet_cons]
  cases hbeq : (e.1 == V) <;> simp [hbeq]

theorem mem_queueMsgs_sendChunk (chunk : List Packet) (recipients : List Nat)
    (st : FwdState) (V : Nat) (m : SubscriberMsg)
    (h : m ∈ queueMsgs (sendChunkToSenders chunk recipients st).1.subs V) :
    m ∈ queueMsgs st.subs V ∨ m = .batchMsg chunk := by
  induction recipients generalizing st with
  | nil => exact Or.inl h
  | cons pk rest ih =>
    unfold sendChunkToSenders at h
    cases hq : subsGet st.subs pk with
    | none =>
      simp only [hq] at h
      exact ih _ h
    | some q =>
      simp only [hq] at h
      by_cases hclosed : q.closed
      · have ht : trySend q (.batchMsg chunk) = (.closedErr, q) := by
          simp [trySend, hclosed]
        simp only [ht] at h
        exact Or.inl h
      · by_cases hfull : q.capacity ≤ q.messages.length
        · have ht : trySend q (.batchMsg chunk) = (.full, q) := by
            simp [trySend, hclosed, hfull]
          simp only [ht] at h
          rcases ih _ h with h' | h'
          · exact Or.inl h'
          · exact Or.inr h'
        · have ht : trySend q (.batchMsg chunk) =
              (.ok, { q with messages := q.messages ++ [.batchMsg chunk] }) := by
            simp [trySend, hclosed, hfull]
          simp only [ht] at h
          rcases ih _ h with h' | h'
          · by_cases hv : V = pk
            · subst hv
              have hset : subsGet (subsSet st.subs V
                  { q with messages := q.messages ++ [.batchMsg chunk] }) V =
                  some { q with messages := q.messages ++ [.batchMsg chunk] } := by
                rw [subsGet_subsSet_self, hq]
                rfl
              rw [queueMsgs_of_subsGet_some hset] at h'
              rcases List.mem_append.mp h' with hh | hh
              · exact Or.inl (by rw [queueMsgs_of_subsGet_some hq]; exact hh)
              · exact Or.inr (by simpa using hh)
            · rw [show queueMsgs (subsSet st.subs pk
                  { q with messages := q.messages ++ [.batchMsg chunk] }) V
                    = queueMsgs st.subs V from
                  queueMsgs_eq_of_subsGet_eq (subsGet_subsSet_ne _ _ _ _ hv)] at h'
              exact Or.inl h'
          · exact Or.inr h'

theorem mem_queueMsgs_forwardBatches (chunks : List (List Packet)) (recipients : List Nat)
    (st : FwdState) (V : Nat) (m : SubscriberMsg)
    (h : m ∈ queueMsgs (forwardBatches chunks recipients st).1.subs V) :
    m ∈ queueMsgs st.subs V ∨ ∃ b ∈ chunks, m = .batchMsg b := by
  induction chunks generalizing st with
  | nil => exact Or.inl h
  | cons b rest ih =>
    unfold forwardBatches at h
    by_cases hemp : b.isEmpty
    · rw [if_pos hemp] at h
      rcases ih _ h with h' | ⟨b', hb', hm⟩
      · exact Or.inl h'
      · exact Or.inr ⟨b', List.mem_cons_of_mem _ hb', hm⟩
    · rw [if_neg hemp] at h
      simp only at h
      rcases ih _ h with h' | ⟨b', hb', hm⟩
      · rcases mem_queueMsgs_sendChunk b recipients st V m h' with h'' | h''
        · exact Or.inl h''
        · exact Or.inr ⟨b, List.mem_cons_self _ _, h''⟩
      · exact Or.inr ⟨b', List.mem_cons_of_mem _ hb', hm⟩

theorem sendChunk_not_recipient (chunk : List Packet) (recipients : List Nat)
    (st : FwdState) (V : Nat) (hV : V ∉ recipients) :
    subsGet (sendChunkToSenders chunk recipients st).1.subs V = subsGet st.subs V ∧
      (sendChunkToSenders chunk recipients st).1.forwarded V = st.forwarded V ∧
      (sendChunkToSenders chunk recipients st).1.dropped V = st.dropped V := by
  induction recipients generalizing st with
  | nil => exact ⟨rfl, rfl, rfl⟩
  | cons pk rest ih =>
    have hVpk : V ≠ pk := fun hc => hV (hc ▸ List.mem_cons_self pk rest)
    have hVrest : V ∉ rest := fun hc => hV (List.mem_cons_of_mem pk hc)
    unfold sendChunkToSenders
    cases hq : subsGet st.subs pk with
    | none =>
      simp only [hq]
      exact ih _ hVrest
    | some q =>
      simp only [hq]
      by_cases hclosed : q.closed
      · have ht : trySend q (.batchMsg chunk) = (.closedErr, q) := by
          simp [trySend, hclosed]
        simp [ht]
      · by_cases hfull : q.capacity ≤ q.messages.length
        · have ht : trySend q (.batchMsg chunk) = (.full, q) := by
            simp [trySend, hclosed, hfull]
          simp only [ht]
          obtain ⟨h1, h2, h3⟩ := ih
            { st with dropped := bumpCounter st.dropped pk chunk.length } hVrest
          refine ⟨h1, h2, ?_⟩
          rw [h3]
          simp [bumpCounter, hVpk]
        · have ht : trySend q (.batchMsg chunk) =
              (.ok, { q with messages := q.messages ++ [.batchMsg chunk] }) := by
            simp [trySend, hclosed, hfull]
          simp only [ht]
          obtain ⟨h1, h2, h3⟩ := ih
            { st with
                subs := subsSet st.subs pk { q with messages := q.messages ++ [.batchMsg chunk] },
                forwarded := bumpCounter st.forwarded pk chunk.length } hVrest
          refine ⟨?_, ?_, h3⟩
          · rw [h1]
            exact subsGet_subsSet_ne _ _ _ _ hVpk
          · rw [h2]
            simp [bumpCounter, hVpk]

theorem forwardBatches_not_recipient (chunks : List (List Packet)) (recipients : List Nat)
    (st : FwdState) (V : Nat) (hV : V ∉ recipients) :
    subsGet (forwardBatches chunks recipients st).1.subs V = subsGet st.subs V := by
  induction chunks generalizing st with
  | nil => rfl
  | cons b rest ih =>
    unfold forwardBatches
    by_cases hemp : b.isEmpty
    · rw [if_pos hemp]
      exact ih st
    · rw [if_neg hemp]
      simp only
      rw [ih _]
      exact (sendChunk_not_recipient b recipients st V hV).1

theorem mem_queueMsgs_handleHeartbeat (subs : PacketSubscriptions) (c V : Nat)
    (m : SubscriberMsg) (h : m ∈ queueMsgs (handleHeartbeat subs c).1 V) :
    m ∈ queueMsgs subs V ∨ m = .heartbeatMsg c := by
  induction subs with
  | nil => exact Or.inl h
  | cons e rest ih =>
    obtain ⟨pk, q⟩ := e
    unfold handleHeartbeat at h
    by_cases hclosed : q.closed
    · have ht : trySend q (.heartbeatMsg c) = (.closedErr, q) := by
        simp [trySend, hclosed]
      simp only [ht] at h
      rw [queueMsgs_cons] at h
      rw [queueMsgs_cons]
      cases hbeq : ((pk, q).1 == V) with
      | true => rw [hbeq] at h; simp only [if_pos rfl] at h ⊢; exact Or.inl h
      | false =>
        rw [hbeq] at h
        simp only [Bool.false_eq_true, if_false] at h ⊢
        exact ih h
    · by_cases hfull : q.capacity ≤ q.messages.length
      · have ht : trySend q (.heartbeatMsg c) = (.full, q) := by
          simp [trySend, hclosed, hfull]
        simp only [ht] at h
        rw [queueMsgs_cons] at h
        rw [queueMsgs_cons]
        cases hbeq : ((pk, q).1 == V) with
        | true => rw [hbeq] at h; simp only [if_pos rfl] at h ⊢; exact Or.inl h
        | false =>
          rw [hbeq] at h
          simp only [Bool.false_eq_true, if_false] at h ⊢
          exact ih h
      · have ht : trySend q (.heartbeatMsg c) =
            (.ok, { q with messages := q.messages ++ [.heartbeatMsg c] }) := by
          simp [trySend, hclosed, hfull]
        simp only [ht] at h
        rw [queueMsgs_cons] at h
        rw [queueMsgs_cons]
        cases hbeq : ((pk, q).1 == V) with
        | true =>
          rw [hbeq] at h
          simp only [if_pos rfl] at h ⊢
          rcases List.mem_append.mp h with hh | hh
          · exact Or.inl hh
          · exact Or.inr (by simpa using hh)
        | false =>
          rw [hbeq] at h
          simp only [Bool.false_eq_true, if_false] at h ⊢
          exact ih h

/-- Claim C2: every packet in a batch delivered by the packet arm to any
subscriber queue has its discard flag false, and when the denylist is
non-empty its payload decodes to a transaction the denylist filter keeps
(messages already present before the arm excepted). -/
theorem packet_arm_delivers_only_filtered (batches : List (List Packet)) (ofac : List Nat)
    (cache : LookupTableCache) (bs : Nat) (fa : Bool) (leaders : List Nat) (st : FwdState)
    (V : Nat) (chunk : List Packet)
    (hmem : SubscriberMsg.batchMsg chunk ∈
      queueMsgs (forwardPackets ofac cache bs fa leaders batches st).1.subs V) :
    SubscriberMsg.batchMsg chunk ∈ queueMsgs st.subs V ∨
      ∀ p ∈ chunk, p.discard = false ∧
        (ofac ≠ [] → ∃ tx, p.payload = some tx ∧ is_tx_ofac_related tx ofac cache = false) := by
  unfold forwardPackets at hmem
  simp only at hmem
  rcases mem_queueMsgs_forwardBatches _ _ _ _ _ hmem with h | ⟨b, hb, hm⟩
  · exact Or.inl h
  · right
    have hcb : chunk = b := by injection hm
    subst hcb
    intro p hp
    exact mem_filterForwardPackets _ _ _ p
      (mem_of_mem_listChunks bs _ _ hb p hp)

/-- Witness for C2: with denylist `[7]`, one discarded packet and one packet
touching address 7 are dropped; only the clean packet reaches the subscriber. -/
theorem packet_arm_delivers_only_filtered_witness :
    (SubscriberMsg.batchMsg [{ discard := false, payload := some ⟨[1], none⟩ }] ∈
      queueMsgs (forwardPackets [7] [] 2 true []
          [[{ discard := false, payload := some ⟨[1], none⟩ },
            { discard := true, payload := some ⟨[1], none⟩ },
            { discard := false, payload := some ⟨[7], none⟩ }]]
          ⟨[(1, ⟨10, [], false⟩)], fun _ => 0, fun _ => 0⟩).1.subs 1) ∧
      (SubscriberMsg.batchMsg [{ discard := false, payload := some ⟨[1], none⟩ }] ∈
          queueMsgs (⟨[(1, ⟨10, [], false⟩)], fun _ => 0, fun _ => 0⟩ : FwdState).subs 1 ∨
        ∀ p ∈ [({ discard := false, payload := some ⟨[1], none⟩ } : Packet)],
          p.discard = false ∧
            (([7] : List Nat) ≠ [] →
              ∃ tx, p.payload = some tx ∧ is_tx_ofac_related tx [7] [] = false)) :=
  ⟨by decide,
    packet_arm_delivers_only_filtered
      [[{ discard := false, payload := some ⟨[1], none⟩ },
        { discard := true, payload := some ⟨[1], none⟩ },
        { discard := false, payload := some ⟨[7], none⟩ }]]
      [7] [] 2 true [] ⟨[(1, ⟨10, [], false⟩)], fun _ => 0, fun _ => 0⟩ 1
      [{ discard := false, payload := some ⟨[1], none⟩ }] (by decide)⟩

theorem runLoop_slot_leaders (cfg : LoopConfig) (events : List LoopEvent) :
    (runLoop cfg events).slot_leaders =
      leaders_for_slots cfg.schedule
        (List.range' (runLoop cfg events).highest_slot cfg.slot_lookahead) ∨
      ((runLoop cfg events).slot_leaders = [] ∧ (runLoop cfg events).highest_slot = 0) := by
  unfold runLoop
  have key : ∀ (events : List LoopEvent) (st : LoopState),
      (st.slot_leaders =
          leaders_for_slots cfg.schedule (List.range' st.highest_slot cfg.slot_lookahead) ∨
        (st.slot_leaders = [] ∧ st.highest_slot = 0)) →
      ((events.foldl (loopStep cfg) st).slot_leaders =
          leaders_for_slots cfg.schedule
            (List.range' (events.foldl (loopStep cfg) st).highest_slot cfg.slot_lookahead) ∨
        ((events.foldl (loopStep cfg) st).slot_leaders = [] ∧
          (events.foldl (loopStep cfg) st).highest_slot = 0)) := by
    intro events
    induction events with
    | nil => intro st hst; exact hst
    | cons e rest ih =>
      intro st hst
      rw [List.foldl_cons]
      apply ih
      cases e with
      | slotEv s => exact Or.inl rfl
      | packetEv batches => exact hst
      | subscribeEv pk => exact hst
      | heartbeatEv healthy => cases healthy <;> exact hst
      | closeEv pk =>
        cases hg : subsGet st.fwd.subs pk <;> simp only [loopStep, hg] <;> exact hst
      | dequeueEv pk =>
        cases hg : subsGet st.fwd.subs pk <;> simp only [loopStep, hg] <;> exact hst
  exact key events initLoopState (Or.inr ⟨rfl, rfl⟩)

theorem loopStep_batch_gating (cfg : LoopConfig) (st : LoopState) (e : LoopEvent)
    (V : Nat) (chunk : List Packet)
    (hmem : SubscriberMsg.batchMsg chunk ∈ queueMsgs (loopStep cfg st e).fwd.subs V) :
    SubscriberMsg.batchMsg chunk ∈ queueMsgs st.fwd.subs V ∨
      cfg.forward_all = true ∨ V ∈ st.slot_leaders := by
  cases e with
  | slotEv s => exact Or.inl hmem
  | packetEv batches =>
    simp only [loopStep] at hmem
    have hmem' := mem_queueMsgs_dropConnections _ _ _ _ hmem
    by_cases hfa : cfg.forward_all = true
    · exact Or.inr (Or.inl hfa)
    · by_cases hv : V ∈ computeSenders cfg.forward_all st.slot_leaders st.fwd.subs
      · refine Or.inr (Or.inr ?_)
        unfold computeSenders at hv
        rw [if_neg hfa] at hv
        exact List.mem_of_mem_filter hv
      · left
        unfold forwardPackets at hmem'
        simp only at hmem'
        rwa [queueMsgs_eq_of_subsGet_eq
          (forwardBatches_not_recipient _ _ _ _ hv)] at hmem'
  | subscribeEv pk =>
    simp only [loopStep] at hmem
    by_cases hv : V = pk
    · subst hv
      have hins : subsGet (subsInsert st.fwd.subs V
          { capacity := SUBSCRIBER_QUEUE_CAPACITY, messages := [], closed := false }) V =
          some { capacity := SUBSCRIBER_QUEUE_CAPACITY, messages := [], closed := false } := by
        rw [subsGet_subsInsert, if_pos rfl]
      rw [queueMsgs_of_subsGet_some hins] at hmem
      exact absurd hmem (List.not_mem_nil _)
    · have hgg : subsGet (subsInsert st.fwd.subs pk
          { capacity := SUBSCRIBER_QUEUE_CAPACITY, messages := [], closed := false }) V =
          subsGet st.fwd.subs V := by
        rw [subsGet_subsInsert, if_neg hv]
      rw [queueMsgs_eq_of_subsGet_eq hgg] at hmem
      exact Or.inl hmem
  | heartbeatEv healthy =>
    cases healthy with
    | false =>
      simp only [loopStep, Bool.false_eq_true, if_false] at hmem
      exact Or.inl (mem_queueMsgs_dropConnections _ _ _ _ hmem)
    | true =>
      simp only [loopStep, if_pos rfl] at hmem
      have h1 := mem_queueMsgs_dropConnections _ _ _ _ hmem
      rcases mem_queueMsgs_handleHeartbeat _ _ _ _ h1 with h2 | h2
      · exact Or.inl h2
      · exact absurd h2 (by simp)
  | closeEv pk =>
    simp only [loopStep] at hmem
    cases hg : subsGet st.fwd.subs pk with
    | none => simp only [hg] at hmem; exact Or.inl hmem
    | some q =>
      simp only [hg] at hmem
      by_cases hv : V = pk
      · subst hv
        have hset : subsGet (subsSet st.fwd.subs V { q with closed := true }) V =
            some { q with closed := true } := by
          rw [subsGet_subsSet_self, hg]
          rfl
        rw [queueMsgs_of_subsGet_some hset] at hmem
        exact Or.inl (by rw [queueMsgs_of_subsGet_some hg]; exact hmem)
      · rw [queueMsgs_eq_of_subsGet_eq (subsGet_subsSet_ne _ _ _ _ hv)] at hmem
        exact Or.inl hmem
  | dequeueEv pk =>
    simp only [loopStep] at hmem
    cases hg : subsGet st.fwd.subs pk with
    | none => simp only [hg] at hmem; exact Or.inl hmem
    | some q =>
      simp only [hg] at hmem
      by_cases hv : V = pk
      · subst hv
        have hset : subsGet (subsSet st.fwd.subs V { q with messages := q.messages.tail }) V =
            some { q with messages := q.messages.tail } := by
          rw [subsGet_subsSet_self, hg]
          rfl
        rw [queueMsgs_of_subsGet_some hset] at hmem
        exact Or.inl (by
          rw [queueMsgs_of_subsGet_some hg]
          exact List.tail_subset _ hmem)
      · rw [queueMsgs_eq_of_subsGet_eq (subsGet_subsSet_ne _ _ _ _ hv)] at hmem
        exact Or.inl hmem

/-- Claim C1: in every state of the relayer event loop, a packet batch is
newly enqueued onto the subscriber queue of identity `V` only if `forward_all`
is enabled or `V` is in the leader set held by the loop, and that leader set
is exactly the one computed at the most recent slot arm as the leaders of
slots `[current_slot, current_slot + slot_lookahead)` (empty with slot 0
before any slot arrived). -/
theorem relayer_leader_gating (cfg : LoopConfig) (events : List LoopEvent) (e : LoopEvent)
    (V : Nat) (chunk : List Packet)
    (hmem : SubscriberMsg.batchMsg chunk ∈
      queueMsgs (loopStep cfg (runLoop cfg events) e).fwd.subs V) :
    (SubscriberMsg.batchMsg chunk ∈ queueMsgs (runLoop cfg events).fwd.subs V ∨
      cfg.forward_all = true ∨ V ∈ (runLoop cfg events).slot_leaders) ∧
      ((runLoop cfg events).slot_leaders =
          leaders_for_slots cfg.schedule
            (List.range' (runLoop cfg events).highest_slot cfg.slot_lookahead) ∨
        ((runLoop cfg events).slot_leaders = [] ∧ (runLoop cfg events).highest_slot = 0)) :=
  ⟨loopStep_batch_gating cfg _ e V chunk hmem, runLoop_slot_leaders cfg events⟩

/-- Witness for C1: validator 1 subscribes, slot 100 arrives with 1 leading
slot 100 and lookahead 2, and a packet batch is delivered to 1. -/
theorem relayer_leader_gating_witness :
    (SubscriberMsg.batchMsg [{ discard := false, payload := none }] ∈
      queueMsgs (loopStep
          ⟨fun s => if s == 100 then some 1 else none, 2, [], [], 2, false⟩
          (runLoop ⟨fun s => if s == 100 then some 1 else none, 2, [], [], 2, false⟩
            [.subscribeEv 1, .slotEv 100])
          (.packetEv [[{ discard := false, payload := none }]])).fwd.subs 1) ∧
      ((SubscriberMsg.batchMsg [{ discard := false, payload := none }] ∈
          queueMsgs (runLoop ⟨fun s => if s == 100 then some 1 else none, 2, [], [], 2, false⟩
            [.subscribeEv 1, .slotEv 100]).fwd.subs 1 ∨
        (⟨fun s => if s == 100 then some 1 else none, 2, [], [], 2, false⟩ :
            LoopConfig).forward_all = true ∨
        1 ∈ (runLoop ⟨fun s => if s == 100 then some 1 else none, 2, [], [], 2, false⟩
            [.subscribeEv 1, .slotEv 100]).slot_leaders) ∧
      ((runLoop ⟨fun s => if s == 100 then some 1 else none, 2, [], [], 2, false⟩
            [.subscribeEv 1, .slotEv 100]).slot_leaders =
          leaders_for_slots (fun s => if s == 100 then some 1 else none)
            (List.range'
              (runLoop ⟨fun s => if s == 100 then some 1 else none, 2, [], [], 2, false⟩
                [.subscribeEv 1, .slotEv 100]).highest_slot 2) ∨
        ((runLoop ⟨fun s => if s == 100 then some 1 else none, 2, [], [], 2, false⟩
            [.subscribeEv 1, .slotEv 100]).slot_leaders = [] ∧
          (runLoop ⟨fun s => if s == 100 then some 1 else none, 2, [], [], 2, false⟩
            [.subscribeEv 1, .slotEv 100]).highest_slot = 0))) :=
  ⟨by decide,
    relayer_leader_gating ⟨fun s => if s == 100 then some 1 else none, 2, [], [], 2, false⟩
      [.subscribeEv 1, .slotEv 100] (.packetEv [[{ discard := false, payload := none }]])
      1 [{ discard := false, payload := none }] (by decide)⟩

/-- Counterexample to claim C4 as stated: with recipient set `[1, 2]` in
iteration order, subscriber 1's queue closed and subscriber 2's queue open and
empty, the non-empty chunk is forwarded to nobody — the `Closed` arm `break`s
out of the senders loop, so subscriber 2 never receives the chunk, while the
claim says every other subscriber in the recipient set still receives it. -/
theorem forward_closed_break_counterexample :
    computeSenders true [] [(1, ⟨10, [], true⟩), (2, ⟨10, [], false⟩)] = [1, 2] ∧
      (forwardPackets [] [] 2 true [] [[{ discard := false, payload := none }]]
          ⟨[(1, ⟨10, [], true⟩), (2, ⟨10, [], false⟩)], fun _ => 0, fun _ => 0⟩).2 = [1] ∧
      queueMsgs (forwardPackets [] [] 2 true [] [[{ discard := false, payload := none }]]
          ⟨[(1, ⟨10, [], true⟩), (2, ⟨10, [], false⟩)], fun _ => 0, fun _ => 0⟩).1.subs 2 =
        [] :=
  ⟨by decide, by decide, by decide⟩

/-- Claim C4 (amended): within one chunk of a packet-batch arm, walking the
recipient list in iteration order, a try-send returning QueueFull increments
that recipient's dropped counter by the chunk's packet count and forwarding
continues with the remaining recipients; the first try-send returning
QueueClosed marks that recipient for disconnection and stops forwarding the
chunk entirely, so the recipients after it in the order receive nothing, while
the recipients before it have each received the chunk (open queue with space)
or had it counted as dropped (full queue). -/
theorem send_chunk_closed_stops_chunk (chunk : List Packet) (r1 : List Nat)
    (r2 : List Nat) (c : Nat) (st : FwdState) (qc : SubscriberQueue)
    (hnd : r1.Nodup) (hcr1 : c ∉ r1)
    (hopen : ∀ pk ∈ r1, ∃ q, subsGet st.subs pk = some q ∧ q.closed = false)
    (hqc : subsGet st.subs c = some qc) (hclosed : qc.closed = true) :
    (sendChunkToSenders chunk (r1 ++ c :: r2) st).2 = [c] ∧
      (∀ pk, pk ∉ r1 →
        subsGet (sendChunkToSenders chunk (r1 ++ c :: r2) st).1.subs pk =
            subsGet st.subs pk ∧
          (sendChunkToSenders chunk (r1 ++ c :: r2) st).1.forwarded pk = st.forwarded pk ∧
          (sendChunkToSenders chunk (r1 ++ c :: r2) st).1.dropped pk = st.dropped pk) ∧
      (∀ pk ∈ r1, ∀ q, subsGet st.subs pk = some q →
        (q.capacity ≤ q.messages.length →
          (sendChunkToSenders chunk (r1 ++ c :: r2) st).1.dropped pk =
              st.dropped pk + chunk.length ∧
            subsGet (sendChunkToSenders chunk (r1 ++ c :: r2) st).1.subs pk = some q ∧
            (sendChunkToSenders chunk (r1 ++ c :: r2) st).1.forwarded pk =
              st.forwarded pk) ∧
        (¬ q.capacity ≤ q.messages.length →
          (sendChunkToSenders chunk (r1 ++ c :: r2) st).1.forwarded pk =
              st.forwarded pk + chunk.length ∧
            subsGet (sendChunkToSenders chunk (r1 ++ c :: r2) st).1.subs pk =
              some { q with messages := q.messages ++ [.batchMsg chunk] } ∧
            (sendChunkToSenders chunk (r1 ++ c :: r2) st).1.dropped pk = st.dropped pk)) := by
  induction r1 generalizing st with
  | nil =>
    have ht : trySend qc (.batchMsg chunk) = (.closedErr, qc) := by
      simp [trySend, hclosed]
    have hstep : sendChunkToSenders chunk ([] ++ c :: r2) st = (st, [c]) := by
      simp only [List.nil_append, sendChunkToSenders, hqc, ht]
    rw [hstep]
    exact ⟨rfl, fun pk _ => ⟨rfl, rfl, rfl⟩, fun pk hpk => absurd hpk (List.not_mem_nil _)⟩
  | cons pk₀ r1' ih =>
    obtain ⟨q₀, hq₀, hq₀open⟩ := hopen pk₀ (List.mem_cons_self _ _)
    have hnd' : r1'.Nodup := (List.nodup_cons.mp hnd).2
    have hpk₀r1 : pk₀ ∉ r1' := (List.nodup_cons.mp hnd).1
    have hcr1' : c ∉ r1' := fun hc => hcr1 (List.mem_cons_of_mem _ hc)
    have hcpk₀ : c ≠ pk₀ := fun hc => hcr1 (hc ▸ List.mem_cons_self _ _)
    by_cases hful : q₀.capacity ≤ q₀.messages.length
    · have ht : trySend q₀ (.batchMsg chunk) = (.full, q₀) := by
        simp [trySend, (by simp [hq₀open] : q₀.closed = false), hful]
      have hstep : sendChunkToSenders chunk ((pk₀ :: r1') ++ c :: r2) st =
          sendChunkToSenders chunk (r1' ++ c :: r2)
            { st with dropped := bumpCounter st.dropped pk₀ chunk.length } := by
        simp only [List.cons_append, sendChunkToSenders, hq₀, ht]
        rfl
      rw [hstep]
      obtain ⟨ih1, ih2, ih3⟩ := ih
        { st with dropped := bumpCounter st.dropped pk₀ chunk.length } hnd' hcr1'
        (fun pk hpk => hopen pk (List.mem_cons_of_mem _ hpk)) hqc
      refine ⟨ih1, ?_, ?_⟩
      · intro pk hpk
        have hpkne : pk ≠ pk₀ := fun hc => hpk (hc ▸ List.mem_cons_self _ _)
        have hpknr : pk ∉ r1' := fun hc => hpk (List.mem_cons_of_mem _ hc)
        obtain ⟨j1, j2, j3⟩ := ih2 pk hpknr
        refine ⟨j1, j2, ?_⟩
        rw [j3]
        simp [bumpCounter, hpkne]
      · intro pk hpk q hq
        rcases List.mem_cons.mp hpk with rfl | hpk'
        · have hqq : q = q₀ := by rw [hq₀] at hq; exact (Option.some_inj.mp hq).symm
          subst hqq
          obtain ⟨j1, j2, j3⟩ := ih2 pk hpk₀r1
          refine ⟨fun _ => ⟨?_, ?_, j2⟩, fun hcon => absurd hful hcon⟩
          · rw [j3]
            simp [bumpCounter]
          · rw [j1]
            exact hq
        · have hpkne : pk ≠ pk₀ := fun hc => hpk₀r1 (hc ▸ hpk')
          obtain ⟨k1, k2⟩ := ih3 pk hpk' q hq
          refine ⟨fun hc => ?_, fun hc => ?_⟩
          · obtain ⟨m1, m2, m3⟩ := k1 hc
            refine ⟨?_, m2, m3⟩
            rw [m1]
            simp [bumpCounter, hpkne]
          · obtain ⟨m1, m2, m3⟩ := k2 hc
            refine ⟨m1, m2, ?_⟩
            rw [m3]
            simp [bumpCounter, hpkne]
    · have ht : trySend q₀ (.batchMsg chunk) =
          (.ok, { q₀ with messages := q₀.messages ++ [.batchMsg chunk] }) := by
        simp [trySend, (by simp [hq₀open] : q₀.closed = false), hful]
      have hstep : sendChunkToSenders chunk ((pk₀ :: r1') ++ c :: r2) st =
          sendChunkToSenders chunk (r1' ++ c :: r2)
            { st with
                subs := subsSet st.subs pk₀
                  { q₀ with messages := q₀.messages ++ [.batchMsg chunk] },
                forwarded := bumpCounter st.forwarded pk₀ chunk.length } := by
        simp only [List.cons_append, sendChunkToSenders, hq₀, ht]
        rfl
      rw [hstep]
      have hopen' : ∀ pk ∈ r1',
          ∃ q, subsGet (subsSet st.subs pk₀
              { q₀ with messages := q₀.messages ++ [.batchMsg chunk] }) pk = some q ∧
            q.closed = false := by
        intro pk hpk
        have hpkne : pk ≠ pk₀ := fun hc => hpk₀r1 (hc ▸ hpk)
        obtain ⟨q, hq, hqo⟩ := hopen pk (List.mem_cons_of_mem _ hpk)
        exact ⟨q, by rw [subsGet_subsSet_ne _ _ _ _ hpkne]; exact hq, hqo⟩
      have hqc' : subsGet (subsSet st.subs pk₀
          { q₀ with messages := q₀.messages ++ [.batchMsg chunk] }) c = some qc := by
        rw [subsGet_subsSet_ne _ _ _ _ hcpk₀]
        exact hqc
      obtain ⟨ih1, ih2, ih3⟩ := ih
        { st with
            subs := subsSet st.subs pk₀
              { q₀ with messages := q₀.messages ++ [.batchMsg chunk] },
            forwarded := bumpCounter st.forwarded pk₀ chunk.length } hnd' hcr1' hopen' hqc'
      refine ⟨ih1, ?_, ?_⟩
      · intro pk hpk
        have hpkne : pk ≠ pk₀ := fun hc => hpk (hc ▸ List.mem_cons_self _ _)
        have hpknr : pk ∉ r1' := fun hc => hpk (List.mem_cons_of_mem _ hc)
        obtain ⟨j1, j2, j3⟩ := ih2 pk hpknr
        refine ⟨?_, ?_, j3⟩
        · rw [j1]
          exact subsGet_subsSet_ne _ _ _ _ hpkne
        · rw [j2]
          simp [bumpCounter, hpkne]
      · intro pk hpk q hq
        rcases List.mem_cons.mp hpk with rfl | hpk'
        · have hqq : q = q₀ := by rw [hq₀] at hq; exact (Option.some_inj.mp hq).symm
          subst hqq
          obtain ⟨j1, j2, j3⟩ := ih2 pk hpk₀r1
          refine ⟨fun hcon => absurd hcon hful, fun _ => ⟨?_, ?_, j3⟩⟩
          · rw [j2]
            simp [bumpCounter]
          · rw [j1, subsGet_subsSet_self, hq₀]
            rfl
        · have hpkne : pk ≠ pk₀ := fun hc => hpk₀r1 (hc ▸ hpk')
          have hq' : subsGet (subsSet st.subs pk₀
              { q₀ with messages := q₀.messages ++ [.batchMsg chunk] }) pk = some q := by
            rw [subsGet_subsSet_ne _ _ _ _ hpkne]
            exact hq
          obtain ⟨k1, k2⟩ := ih3 pk hpk' q hq'
          refine ⟨fun hc => ?_, fun hc => ?_⟩
          · obtain ⟨m1, m2, m3⟩ := k1 hc
            refine ⟨m1, m2, ?_⟩
            rw [m3]
            simp [bumpCounter, hpkne]
          · obtain ⟨m1, m2, m3⟩ := k2 hc
            refine ⟨?_, m2, m3⟩
            rw [m1]
            simp [bumpCounter, hpkne]

/-- Witness for the amended C4: recipients `[2, 3, 1, 4]` where 2 has space,
3 is full (capacity 0), 1 is closed and 4 is open: the failed list is `[1]`
and subscriber 4's queue is untouched. -/
theorem send_chunk_closed_stops_chunk_witness :
    ([2, 3] : List Nat).Nodup ∧
      (sendChunkToSenders [{ discard := false, payload := none }] ([2, 3] ++ 1 :: [4])
          ⟨[(2, ⟨5, [], false⟩), (3, ⟨0, [], false⟩), (1, ⟨5, [], true⟩),
            (4, ⟨5, [], false⟩)], fun _ => 0, fun _ => 0⟩).2 = [1] ∧
      subsGet (sendChunkToSenders [{ discard := false, payload := none }] ([2, 3] ++ 1 :: [4])
          ⟨[(2, ⟨5, [], false⟩), (3, ⟨0, [], false⟩), (1, ⟨5, [], true⟩),
            (4, ⟨5, [], false⟩)], fun _ => 0, fun _ => 0⟩).1.subs 4 =
        subsGet [(2, ⟨5, [], false⟩), (3, ⟨0, [], false⟩), (1, ⟨5, [], true⟩),
            (4, ⟨5, [], false⟩)] 4 := by
  have T := send_chunk_closed_stops_chunk [{ discard := false, payload := none }] [2, 3] [4] 1
    ⟨[(2, ⟨5, [], false⟩), (3, ⟨0, [], false⟩), (1, ⟨5, [], true⟩),
      (4, ⟨5, [], false⟩)], fun _ => 0, fun _ => 0⟩ ⟨5, [], true⟩
    (by decide) (by decide)
    (fun pk hpk => by
      rcases List.mem_cons.mp hpk with rfl | hpk
      · exact ⟨_, rfl, rfl⟩
      rcases List.mem_cons.mp hpk with rfl | hpk
      · exact ⟨_, rfl, rfl⟩
      · exact absurd hpk (List.not_mem_nil _))
    rfl (by decide)
  exact ⟨by decide, T.1, (T.2.1 4 (by decide)).1⟩

end JitoRelayer
